import Mathlib

/-! robot_omni: Mecanum drive controller, PID and command watchdog.

Shallow embedding of
`src/arduino/src/{RobotConfig.h, PID.h, MecanumControl.cpp, Protocol.cpp, main.cpp}`.

Conventions of the embedding:

* `float` values are exact rationals (`ℚ`); the literals `0.1f`, `0.3f`, `1.0f`, ... are the
  rationals `1/10`, `3/10`, `1`, ...
* `unsigned long` is 32 bits wide on the target (AVR): values are naturals below `2^32`
  and subtraction wraps modulo `2^32`.
* module-level `static` variables become fields of explicit state records; every function
  that mutates them takes the state and returns the new one.
* the arrays of length four (`motors`, `wheelTarget`, `pid`, ...) are functions on `Fin 4`;
  a `for (i = 0; i < 4; i++)` loop whose iterations touch only element `i` is the
  corresponding pointwise definition.
* `millis()` is an input: the functions that read the clock take the value read as `now`.
* `digitalRead` is an input: an encoder capture event carries the level read on channel B.
* a `char` is its character code (a natural number) and an Arduino `String` is the list of
  the codes of its characters; `str "VEL"` is the list of codes of a string literal.
* `long` counters are integers: signed overflow is undefined in C++, and the model covers
  the executions in which the counters stay within the range of `long`.
* what is written to `Serial3` (the command link) is returned or recorded as a list of
  output records; the debug messages written to `Serial` (USB) are not part of the model.
-/

namespace RobotOmni

/-! ## RobotConfig.h -/

/-- Control modes, `enum ControlMode` of `RobotConfig.h`. -/
inductive ControlMode where
  | MODE_MANUAL
  | MODE_AI
  deriving DecidableEq, Repr

/-- Constant `PWM_MAX` of `RobotConfig.h`. -/
def PWM_MAX : Int := 200

/-- Constant `MAX_WHEEL_SPEED` of `RobotConfig.h`. -/
def MAX_WHEEL_SPEED : ℚ := 500

/-- Constant `WATCHDOG_TIMEOUT` of `RobotConfig.h`, in milliseconds. -/
def WATCHDOG_TIMEOUT : Nat := 500

/-- Width of `unsigned long` on the target: arithmetic on it is modulo `2^32`. -/
def ULONG_MOD : Nat := 2 ^ 32

/-- Subtraction of two `unsigned long` values, wrapping modulo `2^32`. -/
def usub (a b : Nat) : Nat := (a + ULONG_MOD - b % ULONG_MOD) % ULONG_MOD

/-! ## Arduino core and motor shield (declarations used by the sources) -/

/-- Modelled from the spec: the Arduino core macro `abs(x)`, `((x)>0?(x):-(x))`,
which the sources use for the magnitudes `|m_i|`, `|vx|`, `|cmd|`. -/
def absF (x : ℚ) : ℚ := if x > 0 then x else -x

/-- Modelled from the spec: the Arduino core macro `max(a,b)`, `((a)>(b)?(a):(b))`,
which the mixers use for `max(|m0|,|m1|,|m2|,|m3|)`. -/
def maxF (a b : ℚ) : ℚ := if a > b then a else b

/-- The largest magnitude among four values, `max(|r0|,|r1|,|r2|,|r3|)`, written with the
order-theoretic `max` and absolute value. -/
def maxAbs4 (r : Fin 4 → ℚ) : ℚ := max (max |r 0| |r 1|) (max |r 2| |r 3|)

/-- Modelled from the spec: the direction commands of the motor-actuation collaborator
(`FORWARD`, `BACKWARD`, `RELEASE` of the motor shield library) that the sources pass to `run`. -/
inductive MotorDir where
  | FORWARD
  | BACKWARD
  | RELEASE
  deriving DecidableEq, Repr

/-- Modelled from the spec: one actuator of the motor-actuation collaborator (`AF_DCMotor`,
declared by the motor shield library). Its observable state is the last value given to
`setSpeed` (a `uint8_t`) and the last command given to `run`. -/
structure AF_DCMotor where
  speed : Nat
  dir : MotorDir
  deriving DecidableEq, Repr

/-- Method `AF_DCMotor::setSpeed(uint8_t)`: the argument is converted to `uint8_t`. -/
def AF_DCMotor.setSpeed (m : AF_DCMotor) (pwm : Int) : AF_DCMotor :=
  { m with speed := (pwm % 256).toNat }

/-- Method `AF_DCMotor::run(cmd)`. -/
def AF_DCMotor.run (m : AF_DCMotor) (d : MotorDir) : AF_DCMotor :=
  { m with dir := d }

/-! ## PID.h -/

/-- The `struct PID` of `PID.h`. -/
structure PID where
  kp : ℚ
  ki : ℚ
  kd : ℚ
  integral : ℚ
  prevErr : ℚ
  outMin : ℚ
  outMax : ℚ
  derivFilter : ℚ
  alpha : ℚ
  deriving DecidableEq, Repr

/-- A `PID` object before `init`: the default member initialisers of `PID.h`
(the gains have none; the objects are static, hence zero). -/
def PID.default : PID :=
  { kp := 0, ki := 0, kd := 0, integral := 0, prevErr := 0,
    outMin := -1, outMax := 1, derivFilter := 0, alpha := 1 / 5 }

/-- Method `PID::init` (PID.h, lines 76-87). -/
def PID.init (p : PID) (_kp _ki _kd mn mx : ℚ) : PID :=
  { p with kp := _kp, ki := _ki, kd := _kd, outMin := mn, outMax := mx,
           integral := 0, prevErr := 0, derivFilter := 0 }

/-- Division of two `float`s in exact arithmetic: there is no quotient when the divisor
is zero, and `none` records that such a division was executed. -/
def fdiv (a b : ℚ) : Option ℚ := if b = 0 then none else some (a / b)

/-- Method `PID::update` (PID.h, lines 109-139): the new state of the object and the
returned command. The division of line 117 has no guard in the source; the result is `none`
when it divides by zero. -/
def PID.update (p : PID) (target measure dt : ℚ) : Option (PID × ℚ) :=
  let err := target - measure
  let newIntegral := p.integral + err * dt
  match fdiv (err - p.prevErr) dt with
  | none => none
  | some derivRaw =>
    let derivFilter := p.alpha * derivRaw + (1 - p.alpha) * p.derivFilter
    let out := p.kp * err + p.ki * newIntegral + p.kd * derivFilter
    if out > p.outMax then
      some ({ p with derivFilter := derivFilter, prevErr := err }, p.outMax)
    else if out < p.outMin then
      some ({ p with derivFilter := derivFilter, prevErr := err }, p.outMin)
    else
      some ({ p with derivFilter := derivFilter, integral := newIntegral, prevErr := err }, out)

/-- The local `out` of `PID::update` at line 123, before saturation (with the quotient of
line 117 written as a field division, which is the quotient whenever `dt ≠ 0`). -/
def PID.rawOut (p : PID) (target measure dt : ℚ) : ℚ :=
  let err := target - measure
  let newIntegral := p.integral + err * dt
  let derivRaw := (err - p.prevErr) / dt
  let derivFilter := p.alpha * derivRaw + (1 - p.alpha) * p.derivFilter
  p.kp * err + p.ki * newIntegral + p.kd * derivFilter

/-- Consecutive calls of `update` on one `PID` object, one call per element
`(target, measure, dt)`: the state after each call paired with the value that call returned,
or `none` when a call divides by zero. -/
def PID.trace (p : PID) : List (ℚ × ℚ × ℚ) → Option (List (PID × ℚ))
  | [] => some []
  | (target, measure, dt) :: rest =>
    match p.update target measure dt with
    | none => none
    | some (p2, u) =>
      match PID.trace p2 rest with
      | none => none
      | some tr => some ((p2, u) :: tr)

/-- The call `update(target, measure, dt)` saturates: its unsaturated output is above
`outMax` or below `outMin`. -/
def PID.saturates (p : PID) (target measure dt : ℚ) : Prop :=
  p.rawOut target measure dt > p.outMax ∨ p.rawOut target measure dt < p.outMin

instance (p : PID) (target measure dt : ℚ) : Decidable (p.saturates target measure dt) := by
  unfold PID.saturates
  infer_instance

/-- Every call of a run of consecutive `update` calls has `dt ≠ 0` and saturates, each call
being judged on the state the previous call left. -/
def PID.allSaturate (p : PID) : List (ℚ × ℚ × ℚ) → Prop
  | [] => True
  | (target, measure, dt) :: rest =>
    dt ≠ 0 ∧ p.saturates target measure dt ∧
      match p.update target measure dt with
      | none => False
      | some (p2, _) => PID.allSaturate p2 rest

/-! ## MecanumControl.cpp -/

/-- The module-level state of `MecanumControl.cpp` (lines 32-101). -/
structure Drive where
  motors : Fin 4 → AF_DCMotor
  ticks : Fin 4 → Int
  speedCount : Fin 4 → Int
  wheelSpeed : Fin 4 → ℚ
  wheelTarget : Fin 4 → ℚ
  pid : Fin 4 → PID
  lastSpeedTime : Nat
  lastPIDTime : Nat
  currentMode : ControlMode
  vx_cmd : ℚ
  vy_cmd : ℚ
  w_cmd : ℚ

/-- Table `motorSign` (MecanumControl.cpp, lines 139-144). -/
def motorSign : Fin 4 → Int := ![1, 1, 1, 1]

/-- Conversion `(int)x` of a `float`: truncation toward zero. -/
def truncToInt (x : ℚ) : Int := if 0 ≤ x then ⌊x⌋ else ⌈x⌉

/-- Function `applyMotor` (MecanumControl.cpp, lines 156-167). -/
def applyMotor (m : AF_DCMotor) (cmd : ℚ) (index : Fin 4) : AF_DCMotor :=
  let cmd := cmd * (motorSign index : ℚ)
  let pwm : Int := truncToInt (absF cmd * (PWM_MAX : ℚ))
  let pwm : Int := if pwm > PWM_MAX then PWM_MAX else pwm
  let m := m.setSpeed pwm
  if cmd > 0 then m.run MotorDir.BACKWARD
  else if cmd < 0 then m.run MotorDir.FORWARD
  else m.run MotorDir.RELEASE

/-- The array `m` of `mecanumOpenLoop` after its normalisation step
(MecanumControl.cpp, lines 180-192). -/
def openLoopMix (vx vy w : ℚ) : Fin 4 → ℚ :=
  let m : Fin 4 → ℚ := ![vx - vy - w, vx + vy + w, vx - vy + w, vx + vy - w]
  let maxVal := maxF (maxF (absF (m 0)) (absF (m 1))) (maxF (absF (m 2)) (absF (m 3)))
  if maxVal > 1 then fun i => m i / maxVal else m

/-- The raw mix `(r0, r1, r2, r3)`: the initial value of the array `m` in both mixers
(MecanumControl.cpp, lines 180-185 and 205-210). -/
def rawMix (vx vy w : ℚ) : Fin 4 → ℚ :=
  ![vx - vy - w, vx + vy + w, vx - vy + w, vx + vy - w]

/-- Function `mecanumOpenLoop` (MecanumControl.cpp, lines 179-196). -/
def mecanumOpenLoop (s : Drive) (vx vy w : ℚ) : Drive :=
  let m := openLoopMix vx vy w
  { s with motors := fun i => applyMotor (s.motors i) (m i) i }

/-- The array `m` of `mecanumToWheelTargets` after its normalisation step
(MecanumControl.cpp, lines 205-216). -/
def wheelTargetsMix (vx vy w : ℚ) : Fin 4 → ℚ :=
  let m : Fin 4 → ℚ := ![vx - vy - w, vx + vy + w, vx - vy + w, vx + vy - w]
  let maxVal := maxF (maxF (absF (m 0)) (absF (m 1))) (maxF (absF (m 2)) (absF (m 3)))
  if maxVal > 1 then fun i => m i / maxVal else m

/-- Function `mecanumToWheelTargets` (MecanumControl.cpp, lines 204-220). -/
def mecanumToWheelTargets (s : Drive) (vx vy w : ℚ) : Drive :=
  let m := wheelTargetsMix vx vy w
  { s with wheelTarget := fun i => m i * MAX_WHEEL_SPEED }

/-- The static initialisers of `MecanumControl.cpp` (lines 32-101): the state at program start.
A motor object starts released with no speed set, and each `PID` holds its default members. -/
def Drive.static : Drive :=
  { motors := fun _ => { speed := 0, dir := MotorDir.RELEASE },
    ticks := fun _ => 0,
    speedCount := fun _ => 0,
    wheelSpeed := fun _ => 0,
    wheelTarget := fun _ => 0,
    pid := fun _ => PID.default,
    lastSpeedTime := 0,
    lastPIDTime := 0,
    currentMode := ControlMode.MODE_MANUAL,
    vx_cmd := 0, vy_cmd := 0, w_cmd := 0 }

/-- Function `mecanumInit` (MecanumControl.cpp, lines 228-250); `t1` and `t2` are the two
values read from `millis()` at lines 247 and 248. -/
def mecanumInit (s : Drive) (t1 t2 : Nat) : Drive :=
  { s with motors := fun i => ((s.motors i).run MotorDir.RELEASE).setSpeed 0,
           pid := fun i => (s.pid i).init (5 / 1000) 0 0 (-1) 1,
           lastSpeedTime := t1,
           lastPIDTime := t2,
           currentMode := ControlMode.MODE_MANUAL }

/-- Function `mecanumSetMode` (MecanumControl.cpp, lines 258-270). -/
def mecanumSetMode (s : Drive) (mode : ControlMode) : Drive :=
  let s := { s with currentMode := mode }
  let s := { s with vx_cmd := 0, vy_cmd := 0, w_cmd := 0 }
  let s := { s with wheelTarget := fun _ => 0 }
  if mode = ControlMode.MODE_MANUAL then
    { s with motors := fun i => (s.motors i).run MotorDir.RELEASE }
  else s

/-- The rotation demand after the instability clamp, in the words of the specification:
0 when `|vx| < 0.1`, `|vy| > 0.3` and `|w| > 0.3`, and `w` otherwise. -/
def clampedW (vx vy w : ℚ) : ℚ :=
  if |vx| < 1 / 10 ∧ |vy| > 3 / 10 ∧ |w| > 3 / 10 then 0 else w

/-- Function `mecanumSetCommand` (MecanumControl.cpp, lines 278-292). -/
def mecanumSetCommand (s : Drive) (vx vy w : ℚ) : Drive :=
  let w := if absF vx < 1 / 10 ∧ absF vy > 3 / 10 ∧ absF w > 3 / 10 then 0 else w
  let s := { s with vx_cmd := vx, vy_cmd := vy, w_cmd := w }
  if s.currentMode = ControlMode.MODE_MANUAL then mecanumOpenLoop s vx vy w
  else mecanumToWheelTargets s vx vy w

/-- Function `mecanumEmergencyStop` (MecanumControl.cpp, lines 356-364). -/
def mecanumEmergencyStop (s : Drive) : Drive :=
  { s with vx_cmd := 0, vy_cmd := 0, w_cmd := 0,
           wheelTarget := fun _ => 0,
           motors := fun i => ((s.motors i).setSpeed 0).run MotorDir.RELEASE }

/-- Function `handleEncoder` (MecanumControl.cpp, lines 114-123), the body of the four
interrupt routines; `b` is the level read on channel B. -/
def handleEncoder (s : Drive) (i : Fin 4) (b : Bool) : Drive :=
  if b then
    { s with ticks := Function.update s.ticks i (s.ticks i + 1),
             speedCount := Function.update s.speedCount i (s.speedCount i + 1) }
  else
    { s with ticks := Function.update s.ticks i (s.ticks i - 1),
             speedCount := Function.update s.speedCount i (s.speedCount i - 1) }

/-- The section of `mecanumUpdateEncoders` that runs with interrupts disabled
(MecanumControl.cpp, lines 311-314): read `speedCount[i]` into `sc` and clear it.
The result is the new state and `sc`. -/
def swapSpeedCount (s : Drive) (i : Fin 4) : Drive × Int :=
  ({ s with speedCount := Function.update s.speedCount i 0 }, s.speedCount i)

/-- One record written to `Serial3`: a text line (`println`), or the telemetry line
`ENC ticks[4] wheelSpeed[4]` with the eight values printed. -/
inductive Serial3Out where
  | line (text : String)
  | enc (ticks : Fin 4 → Int) (speeds : Fin 4 → ℚ)

/-- One iteration of the loop of `mecanumUpdateEncoders` (MecanumControl.cpp, lines 310-317):
the swap of wheel `i`, then `wheelSpeed[i] = sc / dt`. -/
def encoderSample (dt : ℚ) (s : Drive) (i : Fin 4) : Option Drive :=
  match fdiv ((swapSpeedCount s i).2 : ℚ) dt with
  | none => none
  | some v =>
    some { (swapSpeedCount s i).1 with
      wheelSpeed := Function.update (swapSpeedCount s i).1.wheelSpeed i v }

/-- Function `mecanumUpdateEncoders` (MecanumControl.cpp, lines 303-327); `now` is the value
of `millis()`. The result is the new state and what was written to `Serial3`. -/
def mecanumUpdateEncoders (s : Drive) (now : Nat) : Option (Drive × List Serial3Out) :=
  if usub now s.lastSpeedTime < 100 then some (s, [])
  else
    let dt : ℚ := (usub now s.lastSpeedTime : ℚ) / 1000
    let s := { s with lastSpeedTime := now }
    match (((encoderSample dt s 0).bind (encoderSample dt · 1)).bind
        (encoderSample dt · 2)).bind (encoderSample dt · 3) with
    | none => none
    | some s => some (s, [Serial3Out.enc s.ticks s.wheelSpeed])

/-- Constant `PID_FREQ` of `RobotConfig.h`. -/
def PID_FREQ : ℚ := 50

/-- Constant `PID_PERIOD` of `RobotConfig.h`: `1000.0 / PID_FREQ` converted to
`unsigned long`. -/
def PID_PERIOD : Nat := (truncToInt (1000 / PID_FREQ)).toNat

/-- One iteration of the loop of `mecanumUpdatePID` (MecanumControl.cpp, lines 344-347). -/
def pidStep (dt : ℚ) (s : Drive) (i : Fin 4) : Option Drive :=
  match (s.pid i).update (s.wheelTarget i) (s.wheelSpeed i) dt with
  | none => none
  | some (p, u) =>
    some { s with pid := Function.update s.pid i p,
                  motors := Function.update s.motors i (applyMotor (s.motors i) u i) }

/-- Function `mecanumUpdatePID` (MecanumControl.cpp, lines 335-348); `now` is the value of
`millis()`. -/
def mecanumUpdatePID (s : Drive) (now : Nat) : Option Drive :=
  if s.currentMode ≠ ControlMode.MODE_AI then some s
  else if usub now s.lastPIDTime < PID_PERIOD then some s
  else
    let dt : ℚ := (usub now s.lastPIDTime : ℚ) / 1000
    let s := { s with lastPIDTime := now }
    (((pidStep dt s 0).bind (pidStep dt · 1)).bind (pidStep dt · 2)).bind (pidStep dt · 3)

/-- An event on the encoder counters: a capture event of wheel `i` with level `b` on
channel B, or the interrupt-free swap of wheel `i` by the velocity estimation. -/
inductive EncEvent where
  | capture (i : Fin 4) (b : Bool)
  | swap (i : Fin 4)

/-- One event applied to the drive state paired with the ticks consumed so far by the
velocity estimation, per wheel (the sum of the values `sc` swapped out). -/
def encStep (g : Drive × (Fin 4 → Int)) : EncEvent → Drive × (Fin 4 → Int)
  | EncEvent.capture i b => (handleEncoder g.1 i b, g.2)
  | EncEvent.swap i =>
    ((swapSpeedCount g.1 i).1, Function.update g.2 i (g.2 i + (swapSpeedCount g.1 i).2))

/-- A sequence of encoder events, applied in order. -/
def encRun (g : Drive × (Fin 4 → Int)) (events : List EncEvent) : Drive × (Fin 4 → Int) :=
  events.foldl encStep g

/-! ## Arduino `String` (declarations used by Protocol.cpp) -/

/-- The character codes of a string literal. -/
def str (s : String) : List Nat := s.toList.map Char.toNat

/-- Modelled from the spec: the C library test `isspace` that `String::trim` uses: the space
and the control characters 9 to 13. -/
def isspace (c : Nat) : Bool := c = 32 || (9 ≤ c && c ≤ 13)

/-- Modelled from the spec: the Arduino core method `String::trim`, which removes the
leading and the trailing whitespace. -/
def trim (s : List Nat) : List Nat :=
  ((s.dropWhile isspace).reverse.dropWhile isspace).reverse

/-- Modelled from the spec: the Arduino core method `String::startsWith`. -/
def startsWith (s pat : List Nat) : Bool := s.take pat.length == pat

/-- Modelled from the spec: the C library search `strchr` on the rest of a string whose
first character has index `k`: the index of the first `ch`, or -1. -/
def strchrFrom (ch : Nat) : List Nat → Nat → Int
  | [], _ => -1
  | c :: t, k => if c = ch then (k : Int) else strchrFrom ch t (k + 1)

/-- Modelled from the spec: the Arduino core method `String::indexOf(char, fromIndex)`:
-1 when `fromIndex` is not inside the string or the character does not occur from there. -/
def indexOfChar (s : List Nat) (ch : Nat) (fromIndex : Nat) : Int :=
  if fromIndex ≥ s.length then -1 else strchrFrom ch (s.drop fromIndex) fromIndex

/-- Modelled from the spec: the C library search `strstr` on the rest of a string whose
first character has index `k`: the index of the first occurrence of `pat`, or -1. -/
def strstrFrom (pat : List Nat) : List Nat → Nat → Int
  | [], k => if pat = [] then (k : Int) else -1
  | c :: t, k => if (c :: t).take pat.length = pat then (k : Int) else strstrFrom pat t (k + 1)

/-- Modelled from the spec: the Arduino core method `String::indexOf(const String &)`. -/
def indexOfStr (s pat : List Nat) : Int :=
  if 0 ≥ s.length then -1 else strstrFrom pat s 0

/-- Modelled from the spec: the Arduino core method `String::substring(left, right)`: the
characters of index `left` to `right - 1`, the bounds being swapped when `left > right`. -/
def substring (s : List Nat) (left right : Nat) : List Nat :=
  if left > right then (s.take left).drop right else (s.take right).drop left

/-- Modelled from the spec: the Arduino core method `String::replace(char, char)`. -/
def replaceChar (s : List Nat) (find repl : Nat) : List Nat :=
  s.map (fun c => if c = find then repl else c)

/-- The digits `'0'` to `'9'`. -/
def isDigit (c : Nat) : Bool := 48 ≤ c && c ≤ 57

/-- The natural number written by a list of digit characters. -/
def digitsVal (ds : List Nat) : Nat := ds.foldl (fun a c => 10 * a + (c - 48)) 0

/-- Modelled from the spec: the unsigned part of a C library `atof` conversion on a string
without letters: decimal digits, then an optional point followed by decimal digits; the
longest such start of the string is converted, and the value is 0 when there is no digit. -/
def atofUnsigned (s : List Nat) : ℚ :=
  let ip := s.takeWhile isDigit
  let rest := s.dropWhile isDigit
  let fp := match rest with
    | 46 :: t => t.takeWhile isDigit
    | _ => []
  (digitsVal ip : ℚ) + (digitsVal fp : ℚ) / 10 ^ fp.length

/-- Modelled from the spec: the Arduino core method `String::toFloat` (the C library `atof`)
on a string without letters: leading whitespace is skipped, then an optional sign, then the
unsigned part. The value is exact. -/
def toFloat (s : List Nat) : ℚ :=
  match s.dropWhile isspace with
  | 45 :: t => - atofUnsigned t
  | 43 :: t => atofUnsigned t
  | t => atofUnsigned t

/-! ## Protocol.cpp -/

/-- The state of the whole controller: the drive module, the `static lastCommandTime` of
`Protocol.cpp` (line 24), the `static String buffer` of `protocolUpdate` (line 159), and
everything written to `Serial3` so far, oldest first. -/
structure Robot where
  drive : Drive
  lastCommandTime : Nat
  buffer : List Nat
  serial3 : List Serial3Out

/-- Function `safeParseFloat` (Protocol.cpp, lines 40-48). -/
def safeParseFloat (s : List Nat) : ℚ :=
  let clean := s.filter (fun c => (48 ≤ c && c ≤ 57) || c = 45 || c = 46 || c = 44)
  let clean := replaceChar clean 44 46
  toFloat clean

/-- The local `clean` of `handleLine` (Protocol.cpp, lines 66-70): the printable ASCII
characters of the line, trimmed. -/
def cleanLine (line : List Nat) : List Nat :=
  trim (line.filter (fun c => 32 ≤ c && c ≤ 126))

/-- Function `handleLine` (Protocol.cpp, lines 61-133); `now` is the value of `millis()`. -/
def handleLine (r : Robot) (now : Nat) (line : List Nat) : Robot :=
  let clean := cleanLine line
  if startsWith clean (str "VEL") then
    let p1 := indexOfChar clean 32 0
    let p2 := indexOfChar clean 32 (p1 + 1).toNat
    let p3 := indexOfChar clean 32 (p2 + 1).toNat
    if p1 < 0 ∨ p2 < 0 ∨ p3 < 0 then r
    else
      let vx := safeParseFloat (substring clean p1.toNat p2.toNat)
      let vy := safeParseFloat (substring clean p2.toNat p3.toNat)
      let w := safeParseFloat (substring clean p3.toNat clean.length)
      { r with drive := mecanumSetCommand r.drive vx vy w, lastCommandTime := now }
  else if startsWith clean (str "MODE") then
    let r := { r with lastCommandTime := now }
    if indexOfStr clean (str "MANUAL") > 0 then
      { r with drive := mecanumSetMode r.drive ControlMode.MODE_MANUAL,
               serial3 := r.serial3 ++ [Serial3Out.line "MODE MANUAL"] }
    else if indexOfStr clean (str "AI") > 0 then
      { r with drive := mecanumSetMode r.drive ControlMode.MODE_AI,
               serial3 := r.serial3 ++ [Serial3Out.line "MODE AI"] }
    else r
  else if startsWith clean (str "PING") then
    { r with serial3 := r.serial3 ++ [Serial3Out.line "PONG"], lastCommandTime := now }
  else r

/-- The whitespace-delimited tokens of a line, in order. -/
def tokens (line : List Nat) : List (List Nat) :=
  (line.splitOnP isspace).filter (fun t => !t.isEmpty)

/-- Function `protocolWatchdog` (Protocol.cpp, lines 185-190); `now` is the value of `millis()`. -/
def protocolWatchdog (r : Robot) (now : Nat) : Robot :=
  if usub now r.lastCommandTime > WATCHDOG_TIMEOUT then
    { r with drive := mecanumEmergencyStop r.drive }
  else r

/-- Function `protocolInit` (Protocol.cpp, lines 144-147). -/
def protocolInit (r : Robot) (now : Nat) : Robot :=
  { r with lastCommandTime := now }

/-- The controller after `setup()` (main.cpp, lines 31-48) when every clock read returns `now`. -/
def Robot.start (now : Nat) : Robot :=
  protocolInit
    { drive := mecanumInit Drive.static now now, lastCommandTime := 0,
      buffer := [], serial3 := [] } now

/-- The character of a decimal digit. -/
def digitChar (d : Fin 10) : Nat := 48 + d.val

/-- The natural number written by a list of decimal digits, most significant first. -/
def decimalNat (ds : List (Fin 10)) : Nat := ds.foldl (fun a d => 10 * a + d.val) 0

/-- A decimal numeral in the words of the claims: an optional leading `'-'`, digits, and an
optional fraction introduced by `'.'` or by `','` (the flag says which). -/
structure Numeral where
  neg : Bool
  intDigits : List (Fin 10)
  frac : Option (Bool × List (Fin 10))

/-- The characters of a numeral. -/
def Numeral.render (n : Numeral) : List Nat :=
  (if n.neg then [45] else []) ++
    (n.intDigits.map digitChar ++
      (match n.frac with
        | none => []
        | some (comma, fp) => (if comma then 44 else 46) :: fp.map digitChar))

/-- The number a numeral denotes, `','` read as the decimal point. -/
def Numeral.value (n : Numeral) : ℚ :=
  (if n.neg then -1 else 1) *
    ((decimalNat n.intDigits : ℚ) +
      (match n.frac with
        | none => 0
        | some (_, fp) => (decimalNat fp : ℚ) / 10 ^ fp.length))

/-! ## Definitions for the control cycle, the line framing and the reachable states -/

/-- The body of `applyMotor` (MecanumControl.cpp, lines 156-167) with the entry of the
table `motorSign` taken as a parameter: the table is a configuration constant whose
entries are 1 or -1. -/
def applyMotorSigned (sgn : Int) (m : AF_DCMotor) (cmd : ℚ) : AF_DCMotor :=
  let cmd := cmd * (sgn : ℚ)
  let pwm : Int := truncToInt (absF cmd * (PWM_MAX : ℚ))
  let pwm : Int := if pwm > PWM_MAX then PWM_MAX else pwm
  let m := m.setSpeed pwm
  if cmd > 0 then m.run MotorDir.BACKWARD
  else if cmd < 0 then m.run MotorDir.FORWARD
  else m.run MotorDir.RELEASE

/-- One iteration of the loop of `protocolUpdate` (Protocol.cpp, lines 161-175) on the byte
`ev.1` read from `Serial3`, `ev.2` being the value `millis()` has at that moment: the new
state and the line handed to `handleLine`, if any. -/
def protocolStep (r : Robot) (ev : Nat × Nat) : Robot × List (List Nat) :=
  if ev.1 = 10 ∨ ev.1 = 13 then
    if r.buffer.length > 0 then
      ({ handleLine r ev.2 r.buffer with buffer := [] }, [r.buffer])
    else (r, [])
  else ({ r with buffer := r.buffer ++ [ev.1] }, [])

/-- The loop of `protocolUpdate` over the bytes available in one invocation: the final
state and the lines handed to `handleLine`, in order. -/
def protocolRun : Robot → List (Nat × Nat) → Robot × List (List Nat)
  | r, [] => (r, [])
  | r, ev :: rest =>
    ((protocolRun (protocolStep r ev).1 rest).1,
      (protocolStep r ev).2 ++ (protocolRun (protocolStep r ev).1 rest).2)

/-- Function `protocolUpdate` (Protocol.cpp, lines 158-176); `input` holds the bytes
available on `Serial3`, each with the value of `millis()` when it is processed. -/
def protocolUpdate (r : Robot) (input : List (Nat × Nat)) : Robot :=
  (protocolRun r input).1

/-- The line terminators, `'\n'` and `'\r'`. -/
def isTerminator (c : Nat) : Bool := c = 10 || c = 13

/-- The maximal non-empty runs of bytes that a terminator ends, in a byte stream that
continues the text `buffer`. -/
def terminatedRuns (buffer bytes : List Nat) : List (List Nat) :=
  (((buffer ++ bytes).splitOnP isTerminator).dropLast).filter (fun l => !l.isEmpty)

/-- The bytes after the last terminator of a byte stream that continues the text `buffer`. -/
def unterminatedRest (buffer bytes : List Nat) : List Nat :=
  (((buffer ++ bytes).splitOnP isTerminator).getLast?).getD []

/-- Function `loop` (main.cpp, lines 64-81): `input` is what `protocolUpdate` finds on
`Serial3`, and `tEnc`, `tPid`, `tWd` are the values of `millis()` read by
`mecanumUpdateEncoders`, `mecanumUpdatePID` and `protocolWatchdog`. -/
def loop (r : Robot) (input : List (Nat × Nat)) (tEnc tPid tWd : Nat) : Option Robot :=
  let r := protocolUpdate r input
  match mecanumUpdateEncoders r.drive tEnc with
  | none => none
  | some (d, out) =>
    let r := { r with drive := d, serial3 := r.serial3 ++ out }
    match mecanumUpdatePID r.drive tPid with
    | none => none
    | some d2 => some (protocolWatchdog { r with drive := d2 } tWd)

theorem absF_eq_abs (x : ℚ) : absF x = |x| := by
  unfold absF
  split_ifs with h
  · exact (abs_of_pos h).symm
  · exact (abs_of_nonpos (not_lt.mp h)).symm

theorem maxF_eq_max (a b : ℚ) : maxF a b = max a b := by
  unfold maxF
  split_ifs with h
  · exact (max_eq_left h.le).symm
  · exact (max_eq_right (not_lt.mp h)).symm

theorem abs_le_maxAbs4 (r : Fin 4 → ℚ) (i : Fin 4) : |r i| ≤ maxAbs4 r := by
  unfold maxAbs4
  fin_cases i <;> simp [le_max_iff]

theorem maxAbs4_div (r : Fin 4 → ℚ) (M : ℚ) (hM : 0 < M) :
    maxAbs4 (fun i => r i / M) = maxAbs4 r / M := by
  unfold maxAbs4
  simp only [abs_div, abs_of_pos hM]
  rw [max_div_div_right hM.le, max_div_div_right hM.le, max_div_div_right hM.le]

theorem openLoopMix_eq (vx vy w : ℚ) :
    openLoopMix vx vy w =
      if 1 < maxAbs4 (rawMix vx vy w) then
        fun i => rawMix vx vy w i / maxAbs4 (rawMix vx vy w)
      else rawMix vx vy w := by
  simp only [openLoopMix, rawMix, maxAbs4, absF_eq_abs, maxF_eq_max, gt_iff_lt]

theorem wheelTargetsMix_eq (vx vy w : ℚ) :
    wheelTargetsMix vx vy w =
      if 1 < maxAbs4 (rawMix vx vy w) then
        fun i => rawMix vx vy w i / maxAbs4 (rawMix vx vy w)
      else rawMix vx vy w := by
  simp only [wheelTargetsMix, rawMix, maxAbs4, absF_eq_abs, maxF_eq_max, gt_iff_lt]

/-- Both branches of the normalisation, for any four raw values: the result stays in
`[-1, 1]`, and when the largest magnitude exceeds 1 the result has largest magnitude 1 and is
the raw vector times the positive factor `1 / M`. -/
theorem normalised_bounds (r : Fin 4 → ℚ) :
    (∀ i, -1 ≤ (if 1 < maxAbs4 r then fun i => r i / maxAbs4 r else r) i ∧
      (if 1 < maxAbs4 r then fun i => r i / maxAbs4 r else r) i ≤ 1) ∧
    (1 < maxAbs4 r →
      maxAbs4 (if 1 < maxAbs4 r then fun i => r i / maxAbs4 r else r) = 1 ∧
      ∃ k : ℚ, 0 < k ∧ ∀ i, (if 1 < maxAbs4 r then fun i => r i / maxAbs4 r else r) i = k * r i) := by
  constructor
  · intro i
    rw [← abs_le]
    split_ifs with h
    · have hpos : 0 < maxAbs4 r := lt_trans one_pos h
      show |r i / maxAbs4 r| ≤ 1
      rw [abs_div, abs_of_pos hpos, div_le_one hpos]
      exact abs_le_maxAbs4 r i
    · exact le_trans (abs_le_maxAbs4 r i) (not_lt.mp h)
  · intro h
    have hpos : 0 < maxAbs4 r := lt_trans one_pos h
    rw [if_pos h]
    refine ⟨?_, 1 / maxAbs4 r, by positivity, fun i => ?_⟩
    · rw [maxAbs4_div r _ hpos]
      exact div_self hpos.ne.symm
    · show r i / maxAbs4 r = 1 / maxAbs4 r * r i
      ring

theorem exists_abs_gt_one_iff (r : Fin 4 → ℚ) : (∃ i, 1 < |r i|) ↔ 1 < maxAbs4 r := by
  unfold maxAbs4
  simp only [Fin.exists_fin_succ, lt_max_iff, Fin.succ_zero_eq_one, Fin.succ_one_eq_two]
  simp only [IsEmpty.exists_iff, or_false]
  constructor
  · rintro (h | h | h | h)
    · exact Or.inl (Or.inl h)
    · exact Or.inl (Or.inr h)
    · exact Or.inr (Or.inl h)
    · exact Or.inr (Or.inr h)
  · rintro ((h | h) | (h | h))
    · exact Or.inl h
    · exact Or.inr (Or.inl h)
    · exact Or.inr (Or.inr (Or.inl h))
    · exact Or.inr (Or.inr (Or.inr h))

theorem PID_update_eq (p : PID) (target measure dt : ℚ) (hdt : dt ≠ 0) :
    p.update target measure dt =
      if p.rawOut target measure dt > p.outMax then
        some ({ p with
          derivFilter := p.alpha * ((target - measure - p.prevErr) / dt) +
            (1 - p.alpha) * p.derivFilter,
          prevErr := target - measure }, p.outMax)
      else if p.rawOut target measure dt < p.outMin then
        some ({ p with
          derivFilter := p.alpha * ((target - measure - p.prevErr) / dt) +
            (1 - p.alpha) * p.derivFilter,
          prevErr := target - measure }, p.outMin)
      else
        some ({ p with
          derivFilter := p.alpha * ((target - measure - p.prevErr) / dt) +
            (1 - p.alpha) * p.derivFilter,
          integral := p.integral + (target - measure) * dt,
          prevErr := target - measure }, p.rawOut target measure dt) := by
  simp only [PID.update, PID.rawOut, fdiv, if_neg hdt]

/-- One call with zero error on a controller whose integral, previous error and filtered
derivative are zero: the three stay zero, the bounds are kept, and the call returns 0 when
0 lies within the bounds. -/
theorem PID_update_zero_error (q : PID) (t dt : ℚ) (hdt : dt ≠ 0)
    (hq : q.integral = 0 ∧ q.prevErr = 0 ∧ q.derivFilter = 0) :
    ∃ (q2 : PID) (u : ℚ), q.update t t dt = some (q2, u) ∧
      (q2.integral = 0 ∧ q2.prevErr = 0 ∧ q2.derivFilter = 0) ∧
      q2.outMin = q.outMin ∧ q2.outMax = q.outMax ∧
      (q.outMin ≤ 0 → 0 ≤ q.outMax → u = 0) := by
  obtain ⟨hi, hp, hd⟩ := hq
  have hraw : q.rawOut t t dt = 0 := by
    simp [PID.rawOut, hi, hp, hd]
  have hderiv : q.alpha * ((t - t - q.prevErr) / dt) + (1 - q.alpha) * q.derivFilter = 0 := by
    simp [hp, hd]
  have hint : q.integral + (t - t) * dt = 0 := by
    simp [hi]
  rw [PID_update_eq q t t dt hdt, hraw, hderiv, hint, sub_self]
  by_cases h1 : (0 : ℚ) > q.outMax
  · rw [if_pos h1]
    exact ⟨_, _, rfl, ⟨hi, rfl, rfl⟩, rfl, rfl, fun _ h => absurd h (not_le.mpr h1)⟩
  · rw [if_neg h1]
    by_cases h2 : (0 : ℚ) < q.outMin
    · rw [if_pos h2]
      exact ⟨_, _, rfl, ⟨hi, rfl, rfl⟩, rfl, rfl, fun h _ => absurd h (not_le.mpr h2)⟩
    · rw [if_neg h2]
      exact ⟨_, _, rfl, ⟨rfl, rfl, rfl⟩, rfl, rfl, fun _ _ => rfl⟩

theorem PID_trace_zero_error (steps : List (ℚ × ℚ × ℚ))
    (hsteps : ∀ x ∈ steps, x.1 = x.2.1 ∧ 0 < x.2.2) (q : PID)
    (hq : q.integral = 0 ∧ q.prevErr = 0 ∧ q.derivFilter = 0) :
    ∃ tr : List (PID × ℚ), q.trace steps = some tr ∧ tr.length = steps.length ∧
      (∀ x ∈ tr, x.1.integral = 0 ∧ x.1.prevErr = 0 ∧ x.1.derivFilter = 0) ∧
      (q.outMin ≤ 0 → 0 ≤ q.outMax → ∀ x ∈ tr, x.2 = 0) := by
  induction steps generalizing q with
  | nil =>
    exact ⟨[], rfl, rfl, fun x hx => absurd hx (List.not_mem_nil x),
      fun _ _ x hx => absurd hx (List.not_mem_nil x)⟩
  | cons step rest ih =>
    obtain ⟨target, measure, dt⟩ := step
    have hhead := hsteps (target, measure, dt) (List.mem_cons_self _ _)
    have htm : target = measure := hhead.1
    have hdt : dt ≠ 0 := ne_of_gt hhead.2
    subst htm
    obtain ⟨q2, u, hupd, hz, hmin, hmax, hu⟩ := PID_update_zero_error q target dt hdt hq
    obtain ⟨tr, htr, hlen, hstate, hout⟩ :=
      ih (fun x hx => hsteps x (List.mem_cons_of_mem _ hx)) q2 hz
    refine ⟨(q2, u) :: tr, ?_, ?_, ?_, ?_⟩
    · simp only [PID.trace, hupd, htr]
    · simp only [List.length_cons, hlen]
    · intro x hx
      rcases List.mem_cons.mp hx with rfl | hx
      · exact hz
      · exact hstate x hx
    · intro h1 h2 x hx
      rcases List.mem_cons.mp hx with rfl | hx
      · exact hu h1 h2
      · exact hout (hmin ▸ h1) (hmax ▸ h2) x hx

theorem PID_PERIOD_eq : PID_PERIOD = 20 := by
  norm_num [PID_PERIOD, PID_FREQ, truncToInt]
  rfl

theorem encoderSample_eq (dt : ℚ) (hdt : dt ≠ 0) (s : Drive) (i : Fin 4) :
    encoderSample dt s i =
      some { s with speedCount := Function.update s.speedCount i 0,
                    wheelSpeed := Function.update s.wheelSpeed i ((s.speedCount i : ℚ) / dt) } := by
  simp [encoderSample, swapSpeedCount, fdiv, hdt]

theorem elapsed_seconds_ne_zero (n k : Nat) (hk : 0 < k) (h : k ≤ n) : ((n : ℚ) / 1000) ≠ 0 := by
  have hn : (0 : ℚ) < (n : ℚ) := by exact_mod_cast lt_of_lt_of_le hk h
  positivity

theorem mecanumUpdateEncoders_eq (s : Drive) (now : Nat) (h : 100 ≤ usub now s.lastSpeedTime) :
    mecanumUpdateEncoders s now =
      some ({ s with
          wheelSpeed := fun i => (s.speedCount i : ℚ) / ((usub now s.lastSpeedTime : ℚ) / 1000),
          speedCount := fun _ => 0,
          lastSpeedTime := now },
        [Serial3Out.enc s.ticks
          (fun i => (s.speedCount i : ℚ) / ((usub now s.lastSpeedTime : ℚ) / 1000))]) := by
  have hdt := elapsed_seconds_ne_zero (usub now s.lastSpeedTime) 100 (by norm_num) h
  have hge : ¬ usub now s.lastSpeedTime < 100 := not_lt.mpr h
  have hsc : (Function.update (Function.update (Function.update (Function.update
      s.speedCount 0 0) 1 0) 2 0) 3 0) = fun _ => (0 : Int) := by
    funext i
    fin_cases i <;> simp [Function.update]
  have hws : (Function.update (Function.update (Function.update (Function.update
      s.wheelSpeed 0 ((s.speedCount 0 : ℚ) / ((usub now s.lastSpeedTime : ℚ) / 1000)))
      1 ((s.speedCount 1 : ℚ) / ((usub now s.lastSpeedTime : ℚ) / 1000)))
      2 ((s.speedCount 2 : ℚ) / ((usub now s.lastSpeedTime : ℚ) / 1000)))
      3 ((s.speedCount 3 : ℚ) / ((usub now s.lastSpeedTime : ℚ) / 1000))) =
      fun i => (s.speedCount i : ℚ) / ((usub now s.lastSpeedTime : ℚ) / 1000) := by
    funext i
    fin_cases i <;> simp [Function.update]
  simp only [mecanumUpdateEncoders, if_neg hge, encoderSample_eq _ hdt, Option.bind_some]
  simp [Function.update_noteq, hsc, hws]

theorem pidStep_some (dt : ℚ) (hdt : dt ≠ 0) (s : Drive) (i : Fin 4) :
    ∃ (p : PID) (u : ℚ), (s.pid i).update (s.wheelTarget i) (s.wheelSpeed i) dt = some (p, u) ∧
      pidStep dt s i =
        some { s with pid := Function.update s.pid i p,
                      motors := Function.update s.motors i (applyMotor (s.motors i) u i) } := by
  have h := PID_update_eq (s.pid i) (s.wheelTarget i) (s.wheelSpeed i) dt hdt
  have hsome : ∃ (p : PID) (u : ℚ),
      (s.pid i).update (s.wheelTarget i) (s.wheelSpeed i) dt = some (p, u) := by
    rw [h]
    split_ifs
    · exact ⟨_, _, rfl⟩
    · exact ⟨_, _, rfl⟩
    · exact ⟨_, _, rfl⟩
  obtain ⟨p, u, hpu⟩ := hsome
  exact ⟨p, u, hpu, by simp only [pidStep, hpu]⟩

theorem pidStep_frame (dt : ℚ) (hdt : dt ≠ 0) (s : Drive) (i : Fin 4) :
    ∃ s2 : Drive, pidStep dt s i = some s2 ∧ s2.currentMode = s.currentMode ∧
      s2.wheelTarget = s.wheelTarget ∧ s2.wheelSpeed = s.wheelSpeed ∧
      s2.lastPIDTime = s.lastPIDTime := by
  obtain ⟨p, u, -, h⟩ := pidStep_some dt hdt s i
  exact ⟨_, h, rfl, rfl, rfl, rfl⟩

theorem mecanumUpdatePID_returns (s : Drive) (now : Nat) :
    ∃ s2 : Drive, mecanumUpdatePID s now = some s2 ∧ s2.currentMode = s.currentMode := by
  unfold mecanumUpdatePID
  by_cases hm : s.currentMode ≠ ControlMode.MODE_AI
  · rw [if_pos hm]; exact ⟨s, rfl, rfl⟩
  · rw [if_neg hm]
    by_cases hp : usub now s.lastPIDTime < PID_PERIOD
    · rw [if_pos hp]; exact ⟨s, rfl, rfl⟩
    · rw [if_neg hp]
      have hdt := elapsed_seconds_ne_zero (usub now s.lastPIDTime) PID_PERIOD
        (by rw [PID_PERIOD_eq]; norm_num) (not_lt.mp hp)
      obtain ⟨s0, h0, m0, -⟩ := pidStep_frame _ hdt { s with lastPIDTime := now } 0
      obtain ⟨s1, h1, m1, -⟩ := pidStep_frame _ hdt s0 1
      obtain ⟨s2, h2, m2, -⟩ := pidStep_frame _ hdt s1 2
      obtain ⟨s3, h3, m3, -⟩ := pidStep_frame _ hdt s2 3
      refine ⟨s3, ?_, ?_⟩
      · show ((((pidStep _ _ 0).bind _).bind _).bind _) = some s3
        rw [h0, Option.some_bind, h1, Option.some_bind, h2, Option.some_bind, h3]
      · rw [m3, m2, m1, m0]

theorem encRun_conserves (events : List EncEvent) (g : Drive × (Fin 4 → Int))
    (h : ∀ i, g.1.ticks i = g.2 i + g.1.speedCount i) :
    ∀ i, (encRun g events).1.ticks i = (encRun g events).2 i + (encRun g events).1.speedCount i := by
  induction events generalizing g with
  | nil => exact h
  | cons e rest ih =>
    show ∀ i, (encRun (encStep g e) rest).1.ticks i = _
    apply ih
    intro i
    cases e with
    | capture j b =>
      by_cases hij : i = j
      · subst hij
        cases b <;> simp [encStep, handleEncoder, h i] <;> ring
      · cases b <;> simp [encStep, handleEncoder, Function.update_noteq hij, h i]
    | swap j =>
      by_cases hij : i = j
      · subst hij
        simp [encStep, swapSpeedCount, h i]
      · simp [encStep, swapSpeedCount, Function.update_noteq hij, h i]

theorem strchrFrom_append (ch : Nat) (a r : List Nat) (k : Nat) (ha : ch ∉ a) :
    strchrFrom ch (a ++ ch :: r) k = ((k + a.length : Nat) : Int) := by
  induction a generalizing k with
  | nil => simp [strchrFrom]
  | cons c t ih =>
    have hc : c ≠ ch := fun h => ha (h ▸ List.mem_cons_self c t)
    have ht : ch ∉ t := fun h => ha (List.mem_cons_of_mem c h)
    show strchrFrom ch (c :: (t ++ ch :: r)) k = _
    rw [strchrFrom, if_neg hc, ih (k + 1) ht, List.length_cons]
    congr 1
    omega

theorem strchrFrom_not_mem (ch : Nat) (s : List Nat) (k : Nat) (hs : ch ∉ s) :
    strchrFrom ch s k = -1 := by
  induction s generalizing k with
  | nil => rfl
  | cons c t ih =>
    have hc : c ≠ ch := fun h => hs (h ▸ List.mem_cons_self c t)
    have ht : ch ∉ t := fun h => hs (List.mem_cons_of_mem c h)
    simp only [strchrFrom, if_neg hc, ih (k + 1) ht]

/-- What `strchrFrom` returns: -1 when the character does not occur, and otherwise the
offset plus the length of the part before its first occurrence. -/
theorem strchrFrom_spec (ch : Nat) (s : List Nat) (k : Nat) :
    (ch ∉ s ∧ strchrFrom ch s k = -1) ∨
    ∃ a r, s = a ++ ch :: r ∧ ch ∉ a ∧ strchrFrom ch s k = ((k + a.length : Nat) : Int) := by
  by_cases h : ch ∈ s
  · right
    obtain ⟨a, r, hs, ha⟩ := List.eq_append_cons_of_mem h
    exact ⟨a, r, hs, ha, by rw [hs]; exact strchrFrom_append ch a r k ha⟩
  · exact Or.inl ⟨h, strchrFrom_not_mem ch s k h⟩

theorem indexOfChar_at (pre a r : List Nat) (ch : Nat) (ha : ch ∉ a) :
    indexOfChar (pre ++ (a ++ ch :: r)) ch pre.length = ((pre.length + a.length : Nat) : Int) := by
  have hlen : ¬ pre.length ≥ (pre ++ (a ++ ch :: r)).length := by
    simp only [List.length_append, List.length_cons]
    omega
  simp only [indexOfChar, if_neg hlen, List.drop_left, strchrFrom_append ch a r _ ha]

theorem substring_mid (pre mid post : List Nat) :
    substring (pre ++ (mid ++ post)) pre.length (pre.length + mid.length) = mid := by
  have h : ¬ pre.length > pre.length + mid.length := by omega
  simp only [substring, if_neg h]
  rw [← List.append_assoc, List.take_left' (by simp), List.drop_left]

theorem substring_end (pre post : List Nat) :
    substring (pre ++ post) pre.length (pre ++ post).length = post := by
  have h : ¬ pre.length > (pre ++ post).length := by
    simp only [List.length_append]; omega
  simp only [substring, if_neg h, List.take_length, List.drop_left]

theorem str_VEL : str "VEL" = [86, 69, 76] := by decide

theorem str_MODE : str "MODE" = [77, 79, 68, 69] := by decide

theorem str_PING : str "PING" = [80, 73, 78, 71] := by decide

theorem str_MANUAL : str "MANUAL" = [77, 65, 78, 85, 65, 76] := by decide

theorem str_AI : str "AI" = [65, 73] := by decide

theorem startsWith_append (pat t : List Nat) : startsWith (pat ++ t) pat = true := by
  simp [startsWith]

/-- The three searches and the three substrings of the `VEL` branch on a text with at least
three spaces: `P`, `f1` and `f2` are the stretches before the first three spaces. -/
theorem vel_split (P f1 f2 f3 : List Nat) (hP : 32 ∉ P) (h1 : 32 ∉ f1) (h2 : 32 ∉ f2) :
    indexOfChar (P ++ 32 :: (f1 ++ 32 :: (f2 ++ 32 :: f3))) 32 0 = (P.length : Int) ∧
    indexOfChar (P ++ 32 :: (f1 ++ 32 :: (f2 ++ 32 :: f3))) 32 (P.length + 1) =
      ((P.length + 1 + f1.length : Nat) : Int) ∧
    indexOfChar (P ++ 32 :: (f1 ++ 32 :: (f2 ++ 32 :: f3))) 32 (P.length + 1 + f1.length + 1) =
      ((P.length + 1 + f1.length + 1 + f2.length : Nat) : Int) ∧
    substring (P ++ 32 :: (f1 ++ 32 :: (f2 ++ 32 :: f3))) P.length (P.length + 1 + f1.length) =
      32 :: f1 ∧
    substring (P ++ 32 :: (f1 ++ 32 :: (f2 ++ 32 :: f3))) (P.length + 1 + f1.length)
      (P.length + 1 + f1.length + 1 + f2.length) = 32 :: f2 ∧
    substring (P ++ 32 :: (f1 ++ 32 :: (f2 ++ 32 :: f3))) (P.length + 1 + f1.length + 1 + f2.length)
      (P ++ 32 :: (f1 ++ 32 :: (f2 ++ 32 :: f3))).length = 32 :: f3 := by
  have l1 : (P ++ [32]).length = P.length + 1 := by
    simp only [List.length_append, List.length_cons, List.length_nil]
  have l2 : (P ++ [32] ++ f1 ++ [32]).length = P.length + 1 + f1.length + 1 := by
    simp only [List.length_append, List.length_cons, List.length_nil]
  have l3 : (P ++ [32] ++ f1).length = P.length + 1 + f1.length := by
    simp only [List.length_append, List.length_cons, List.length_nil]
  have l4 : (P ++ [32] ++ f1 ++ [32] ++ f2).length = P.length + 1 + f1.length + 1 + f2.length := by
    simp only [List.length_append, List.length_cons, List.length_nil]
  have l5 : (32 :: f1).length = 1 + f1.length := by
    simp only [List.length_cons]; omega
  have l6 : (32 :: f2).length = 1 + f2.length := by
    simp only [List.length_cons]; omega
  have c1 : ([] : List Nat) ++ (P ++ 32 :: (f1 ++ 32 :: (f2 ++ 32 :: f3))) =
      P ++ 32 :: (f1 ++ 32 :: (f2 ++ 32 :: f3)) := rfl
  have c2 : (P ++ [32]) ++ (f1 ++ 32 :: (f2 ++ 32 :: f3)) =
      P ++ 32 :: (f1 ++ 32 :: (f2 ++ 32 :: f3)) := by simp
  have c3 : (P ++ [32] ++ f1 ++ [32]) ++ (f2 ++ 32 :: f3) =
      P ++ 32 :: (f1 ++ 32 :: (f2 ++ 32 :: f3)) := by simp
  have c4 : P ++ ((32 :: f1) ++ (32 :: (f2 ++ 32 :: f3))) =
      P ++ 32 :: (f1 ++ 32 :: (f2 ++ 32 :: f3)) := by simp
  have c5 : (P ++ [32] ++ f1) ++ ((32 :: f2) ++ (32 :: f3)) =
      P ++ 32 :: (f1 ++ 32 :: (f2 ++ 32 :: f3)) := by simp
  have c6 : (P ++ [32] ++ f1 ++ [32] ++ f2) ++ (32 :: f3) =
      P ++ 32 :: (f1 ++ 32 :: (f2 ++ 32 :: f3)) := by simp
  refine ⟨?_, ?_, ?_, ?_, ?_, ?_⟩
  · have h := indexOfChar_at [] P (f1 ++ 32 :: (f2 ++ 32 :: f3)) 32 hP
    rw [c1, List.length_nil, Nat.zero_add] at h
    exact h
  · have h := indexOfChar_at (P ++ [32]) f1 (f2 ++ 32 :: f3) 32 h1
    rw [c2, l1] at h
    exact h
  · have h := indexOfChar_at (P ++ [32] ++ f1 ++ [32]) f2 f3 32 h2
    rw [c3, l2] at h
    exact h
  · have h := substring_mid P (32 :: f1) (32 :: (f2 ++ 32 :: f3))
    rw [c4, l5, ← Nat.add_assoc] at h
    exact h
  · have h := substring_mid (P ++ [32] ++ f1) (32 :: f2) (32 :: f3)
    rw [c5, l3, l6, ← Nat.add_assoc] at h
    exact h
  · have h := substring_end (P ++ [32] ++ f1 ++ [32] ++ f2) (32 :: f3)
    rw [c6, l4] at h
    exact h

theorem handleLine_VEL_fields (r : Robot) (now : Nat) (line a f1 f2 f3 : List Nat)
    (hclean : cleanLine line = str "VEL" ++ (a ++ 32 :: (f1 ++ 32 :: (f2 ++ 32 :: f3))))
    (ha : 32 ∉ a) (h1 : 32 ∉ f1) (h2 : 32 ∉ f2) :
    handleLine r now line =
      { r with
        drive := mecanumSetCommand r.drive (safeParseFloat (32 :: f1))
          (safeParseFloat (32 :: f2)) (safeParseFloat (32 :: f3)),
        lastCommandTime := now } := by
  have hP : 32 ∉ str "VEL" ++ a := by
    rw [str_VEL]
    simp only [List.mem_append, not_or]
    exact ⟨by decide, ha⟩
  have hc : cleanLine line = (str "VEL" ++ a) ++ 32 :: (f1 ++ 32 :: (f2 ++ 32 :: f3)) := by
    rw [hclean, List.append_assoc]
  obtain ⟨e1, e2, e3, s1, s2, s3⟩ := vel_split (str "VEL" ++ a) f1 f2 f3 hP h1 h2
  have hstart : startsWith (cleanLine line) (str "VEL") = true := by
    rw [hclean]; exact startsWith_append _ _
  simp only [handleLine, hstart, if_true]
  rw [hc, e1]
  have t1 : ((((str "VEL" ++ a).length : Nat) : Int) + 1).toNat = (str "VEL" ++ a).length + 1 := by
    omega
  rw [t1, e2]
  have t2 : ((((str "VEL" ++ a).length + 1 + f1.length : Nat) : Int) + 1).toNat =
      (str "VEL" ++ a).length + 1 + f1.length + 1 := by
    omega
  rw [t2, e3]
  have hneg : ¬ ((((str "VEL" ++ a).length : Nat) : Int) < 0 ∨
      (((str "VEL" ++ a).length + 1 + f1.length : Nat) : Int) < 0 ∨
      (((str "VEL" ++ a).length + 1 + f1.length + 1 + f2.length : Nat) : Int) < 0) := by
    omega
  rw [if_neg hneg]
  simp only [Int.toNat_ofNat, s1, s2, s3]

theorem isDigit_digitChar (d : Fin 10) : isDigit (digitChar d) = true := by
  have := d.isLt
  simp [isDigit, digitChar]
  omega

theorem digitsVal_map_digitChar (ds : List (Fin 10)) :
    digitsVal (ds.map digitChar) = decimalNat ds := by
  unfold digitsVal decimalNat
  rw [List.foldl_map]
  congr 1
  funext a d
  simp [digitChar]

theorem takeWhile_digits (ds : List (Fin 10)) (rest : List Nat)
    (hrest : rest.head?.all (fun c => !isDigit c) = true) :
    (ds.map digitChar ++ rest).takeWhile isDigit = ds.map digitChar ∧
    (ds.map digitChar ++ rest).dropWhile isDigit = rest := by
  induction ds with
  | nil =>
    cases rest with
    | nil => exact ⟨rfl, rfl⟩
    | cons c t =>
      have hc : isDigit c = false := by simpa using hrest
      simp [List.takeWhile, List.dropWhile, hc]
  | cons d t ih =>
    simp [List.takeWhile, List.dropWhile, isDigit_digitChar, ih.1, ih.2]

theorem atofUnsigned_digits (ip fp : List (Fin 10)) (hasFrac : Bool) :
    atofUnsigned (ip.map digitChar ++ (if hasFrac then 46 :: fp.map digitChar else [])) =
      (decimalNat ip : ℚ) + (if hasFrac then (decimalNat fp : ℚ) / 10 ^ fp.length else 0) := by
  have hfp := takeWhile_digits fp [] (by simp)
  rw [List.append_nil] at hfp
  cases hasFrac with
  | false =>
    have htd := takeWhile_digits ip [] (by simp)
    simp only [Bool.false_eq_true, if_false]
    simp only [atofUnsigned, htd.1, htd.2, digitsVal_map_digitChar]
    simp [digitsVal]
  | true =>
    have htd := takeWhile_digits ip (46 :: fp.map digitChar) (by simp [isDigit])
    simp only [if_true]
    simp only [atofUnsigned, htd.1, htd.2, hfp.1, digitsVal_map_digitChar, List.length_map]

theorem toFloat_digits (b : Bool) (ip fp : List (Fin 10)) (hasFrac : Bool) :
    toFloat ((if b then [45] else []) ++
      (ip.map digitChar ++ (if hasFrac then 46 :: fp.map digitChar else []))) =
    (if b then -1 else 1) *
      ((decimalNat ip : ℚ) + (if hasFrac then (decimalNat fp : ℚ) / 10 ^ fp.length else 0)) := by
  have hu := atofUnsigned_digits ip fp hasFrac
  cases b with
  | true =>
    simp only [if_true, List.singleton_append, toFloat]
    have h45 : isspace 45 = false := by decide
    rw [List.dropWhile_cons_of_neg (by simp [h45])]
    simp only [hu]
    ring
  | false =>
    simp only [Bool.false_eq_true, if_false, List.nil_append, one_mul]
    rw [← hu]
    generalize hs : ip.map digitChar ++ (if hasFrac then 46 :: fp.map digitChar else []) = s
    have hhead : ∀ c t, s = c :: t → isspace c = false ∧ c ≠ 45 ∧ c ≠ 43 := by
      intro c t hct
      rw [← hs] at hct
      cases ip with
      | nil =>
        cases hasFrac with
        | false => simp at hct
        | true =>
          simp at hct
          rw [← hct.1]
          decide
      | cons d ds =>
        simp at hct
        have hd := d.isLt
        rw [← hct.1]
        simp [isspace, digitChar]
        omega
    unfold toFloat
    cases s with
    | nil => simp
    | cons c t =>
      obtain ⟨h1, h2, h3⟩ := hhead c t rfl
      rw [List.dropWhile_cons_of_neg (by simp [h1])]
      split
      · rename_i heq
        simp at heq
        exact absurd heq.1 h2
      · rename_i heq
        simp at heq
        exact absurd heq.1 h3
      · rfl

theorem mem_map_digitChar (ds : List (Fin 10)) (c : Nat) (h : c ∈ ds.map digitChar) :
    48 ≤ c ∧ c ≤ 57 := by
  obtain ⟨d, -, rfl⟩ := List.mem_map.mp h
  have := d.isLt
  simp only [digitChar]
  omega

/-- The characters of a numeral: a minus sign, digits, a point or a comma. -/
theorem mem_render (n : Numeral) (c : Nat) (hc : c ∈ n.render) :
    c = 45 ∨ c = 44 ∨ c = 46 ∨ (48 ≤ c ∧ c ≤ 57) := by
  obtain ⟨neg, ip, frac⟩ := n
  simp only [Numeral.render, List.mem_append] at hc
  rcases hc with h | h | h
  · cases neg
    · simp at h
    · left; simpa using h
  · exact Or.inr (Or.inr (Or.inr (mem_map_digitChar _ _ h)))
  · cases frac with
    | none => simp at h
    | some q =>
      obtain ⟨comma, fp⟩ := q
      rcases List.mem_cons.mp h with h | h
      · cases comma
        · right; right; left; simpa using h
        · right; left; simpa using h
      · exact Or.inr (Or.inr (Or.inr (mem_map_digitChar _ _ h)))

theorem render_ne_nil (n : Numeral) (h : n.intDigits ≠ []) : n.render ≠ [] := by
  obtain ⟨d, t, hd⟩ := List.exists_cons_of_ne_nil h
  unfold Numeral.render
  rw [hd]
  cases n.neg <;> simp

theorem space_not_mem_render (n : Numeral) : 32 ∉ n.render := by
  intro h
  rcases mem_render n 32 h with h | h | h | h <;> omega

theorem replaceChar_digits (ds : List (Fin 10)) :
    replaceChar (ds.map digitChar) 44 46 = ds.map digitChar := by
  unfold replaceChar
  rw [List.map_map]
  apply List.map_congr_left
  intro d _
  have := d.isLt
  simp [digitChar]
  omega

theorem safeParseFloat_numeral (n : Numeral) : safeParseFloat (32 :: n.render) = n.value := by
  have hfilter : (32 :: n.render).filter
      (fun c => (decide (48 ≤ c) && decide (c ≤ 57)) || decide (c = 45) || decide (c = 46) ||
        decide (c = 44)) = n.render := by
    rw [List.filter_cons_of_neg (by decide)]
    apply List.filter_eq_self.mpr
    intro c hc
    rcases mem_render n c hc with h | h | h | h
    · subst h; decide
    · subst h; decide
    · subst h; decide
    · simp [h.1, h.2]
  unfold safeParseFloat
  simp only [hfilter]
  obtain ⟨neg, ip, frac⟩ := n
  have hsign : replaceChar (if neg = true then [45] else []) 44 46 =
      (if neg = true then [45] else []) := by
    cases neg <;> rfl
  cases frac with
  | none =>
    have h := toFloat_digits neg ip [] false
    simp only [Bool.false_eq_true, if_false, add_zero] at h
    have hip := replaceChar_digits ip
    simp only [replaceChar] at hsign hip
    simp only [Numeral.render, Numeral.value, replaceChar, List.map_append, List.map_nil,
      hsign, hip, h, add_zero]
  | some q =>
    obtain ⟨comma, fp⟩ := q
    have h := toFloat_digits neg ip fp true
    simp only [if_true] at h
    have hsep : (if (if comma = true then 44 else 46) = 44 then 46
        else (if comma = true then (44 : Nat) else 46)) = 46 := by
      cases comma <;> rfl
    have hfp := replaceChar_digits fp
    have hip := replaceChar_digits ip
    simp only [replaceChar] at hsign hfp hip
    simp only [Numeral.render, Numeral.value, replaceChar, List.map_append, List.map_cons,
      hsign, hfp, hip, hsep, h]

theorem dropWhile_spaces (a : Nat) (s : List Nat) :
    (List.replicate a 32 ++ s).dropWhile isspace = s.dropWhile isspace := by
  induction a with
  | zero => rfl
  | succ k ih =>
    have h32 : isspace 32 = true := by decide
    rw [List.replicate_succ, List.cons_append, List.dropWhile_cons_of_pos h32, ih]

/-- Trimming removes the spaces around a text that neither starts nor ends with whitespace. -/
theorem trim_padded (a b : Nat) (core : List Nat) (c c2 : Nat) (t t2 : List Nat)
    (hcore : core = c :: t) (hc : isspace c = false)
    (hrev : core.reverse = c2 :: t2) (hc2 : isspace c2 = false) :
    trim (List.replicate a 32 ++ (core ++ List.replicate b 32)) = core := by
  have h1 : (List.replicate a 32 ++ (core ++ List.replicate b 32)).dropWhile isspace =
      core ++ List.replicate b 32 := by
    rw [dropWhile_spaces, hcore, List.cons_append, List.dropWhile_cons_of_neg (by simp [hc])]
  have h2 : (core ++ List.replicate b 32).reverse.dropWhile isspace = core.reverse := by
    rw [List.reverse_append, List.reverse_replicate, dropWhile_spaces, hrev,
      List.dropWhile_cons_of_neg (by simp [hc2])]
  unfold trim
  rw [h1, h2, List.reverse_reverse]

theorem cleanLine_padded (a b : Nat) (core : List Nat) (c c2 : Nat) (t t2 : List Nat)
    (hcore : core = c :: t) (hc : isspace c = false)
    (hrev : core.reverse = c2 :: t2) (hc2 : isspace c2 = false)
    (hprint : ∀ x ∈ core, 32 ≤ x ∧ x ≤ 126) :
    cleanLine (List.replicate a 32 ++ (core ++ List.replicate b 32)) = core := by
  have hf : (List.replicate a 32 ++ (core ++ List.replicate b 32)).filter
      (fun c => decide (32 ≤ c) && decide (c ≤ 126)) =
      List.replicate a 32 ++ (core ++ List.replicate b 32) := by
    apply List.filter_eq_self.mpr
    intro x hx
    rcases List.mem_append.mp hx with h | h
    · rw [List.eq_of_mem_replicate h]; decide
    · rcases List.mem_append.mp h with h | h
      · simp [(hprint x h).1, (hprint x h).2]
      · rw [List.eq_of_mem_replicate h]; decide
  unfold cleanLine
  rw [hf]
  exact trim_padded a b core c c2 t t2 hcore hc hrev hc2

/-- The cleaned text of a `VEL` line with three numerals, single spaces between the fields
and any number of spaces around the line. -/
theorem cleanLine_VEL_numerals (a b : Nat) (n1 n2 n3 : Numeral) (h3 : n3.intDigits ≠ []) :
    cleanLine (List.replicate a 32 ++
      ((str "VEL" ++ 32 :: (n1.render ++ 32 :: (n2.render ++ 32 :: n3.render))) ++
        List.replicate b 32)) =
      str "VEL" ++ ([] ++ 32 :: (n1.render ++ 32 :: (n2.render ++ 32 :: n3.render))) := by
  have hne := render_ne_nil n3 h3
  have hrevne : n3.render.reverse ≠ [] := by
    intro h; exact hne (List.reverse_eq_nil_iff.mp h)
  obtain ⟨c2, t2, hr⟩ := List.exists_cons_of_ne_nil hrevne
  have hc2mem : c2 ∈ n3.render := by
    have : c2 ∈ n3.render.reverse := by rw [hr]; exact List.mem_cons_self _ _
    exact List.mem_reverse.mp this
  have hc2 : isspace c2 = false := by
    rcases mem_render n3 c2 hc2mem with h | h | h | h
    · subst h; decide
    · subst h; decide
    · subst h; decide
    · simp [isspace]; omega
  have hprintR : ∀ (n : Numeral) x, x ∈ n.render → 32 ≤ x ∧ x ≤ 126 := by
    intro n x hx
    rcases mem_render n x hx with h | h | h | h <;> omega
  refine cleanLine_padded a b _ 86 c2 (69 :: 76 :: 32 ::
    (n1.render ++ 32 :: (n2.render ++ 32 :: n3.render)))
    (t2 ++ (str "VEL" ++ 32 :: (n1.render ++ [32] ++ n2.render ++ [32])).reverse)
    ?_ (by decide) ?_ hc2 ?_
  · rw [str_VEL]; rfl
  · have : str "VEL" ++ 32 :: (n1.render ++ 32 :: (n2.render ++ 32 :: n3.render)) =
        (str "VEL" ++ 32 :: (n1.render ++ [32] ++ n2.render ++ [32])) ++ n3.render := by
      simp
    rw [this, List.reverse_append, hr, List.cons_append]
  · intro x hx
    rw [str_VEL] at hx
    simp only [List.cons_append, List.nil_append, List.mem_cons, List.mem_append] at hx
    rcases hx with h | h | h | h | h | h | h | h | h
    · omega
    · omega
    · omega
    · omega
    · exact hprintR n1 x h
    · omega
    · exact hprintR n2 x h
    · omega
    · exact hprintR n3 x h

theorem handleLine_VEL_numerals_padded (r : Robot) (now : Nat) (a b : Nat)
    (n1 n2 n3 : Numeral) (h3 : n3.intDigits ≠ []) :
    handleLine r now (List.replicate a 32 ++
      ((str "VEL" ++ 32 :: (n1.render ++ 32 :: (n2.render ++ 32 :: n3.render))) ++
        List.replicate b 32)) =
      { r with drive := mecanumSetCommand r.drive n1.value n2.value n3.value,
               lastCommandTime := now } := by
  rw [handleLine_VEL_fields r now _ [] n1.render n2.render n3.render
    (cleanLine_VEL_numerals a b n1 n2 n3 h3) (List.not_mem_nil 32)
    (space_not_mem_render n1) (space_not_mem_render n2),
    safeParseFloat_numeral, safeParseFloat_numeral, safeParseFloat_numeral]

theorem indexOfChar_spec (s : List Nat) (ch k : Nat) :
    indexOfChar s ch k = -1 ∨
    ∃ a r, s.drop k = a ++ ch :: r ∧ indexOfChar s ch k = ((k + a.length : Nat) : Int) := by
  unfold indexOfChar
  by_cases hk : k ≥ s.length
  · left; rw [if_pos hk]
  · rw [if_neg hk]
    rcases strchrFrom_spec ch (s.drop k) k with ⟨-, h⟩ | ⟨a, r, hs, -, h⟩
    · exact Or.inl h
    · exact Or.inr ⟨a, r, hs, h⟩

/-- When the three searches of the `VEL` branch all succeed, the text has three spaces. -/
theorem vel_three_spaces (s : List Nat)
    (h1 : ¬ indexOfChar s 32 0 < 0)
    (h2 : ¬ indexOfChar s 32 (indexOfChar s 32 0 + 1).toNat < 0)
    (h3 : ¬ indexOfChar s 32 (indexOfChar s 32 (indexOfChar s 32 0 + 1).toNat + 1).toNat < 0) :
    3 ≤ s.count 32 := by
  rcases indexOfChar_spec s 32 0 with e1 | ⟨a1, r1, d1, e1⟩
  · rw [e1] at h1; exact absurd (by decide) h1
  rw [e1] at h2 h3
  have t1 : ((((0 + a1.length : Nat) : Int)) + 1).toNat = a1.length + 1 := by omega
  rw [t1] at h2 h3
  rw [List.drop_zero] at d1
  rcases indexOfChar_spec s 32 (a1.length + 1) with e2 | ⟨a2, r2, d2, e2⟩
  · rw [e2] at h2; exact absurd (by decide) h2
  rw [e2] at h3
  have t2 : ((((a1.length + 1 + a2.length : Nat) : Int)) + 1).toNat =
      a1.length + 1 + a2.length + 1 := by omega
  rw [t2] at h3
  rcases indexOfChar_spec s 32 (a1.length + 1 + a2.length + 1) with e3 | ⟨a3, r3, d3, e3⟩
  · rw [e3] at h3; exact absurd (by decide) h3
  have hr1 : s.drop (a1.length + 1) = r1 := by
    rw [d1]
    have : a1 ++ 32 :: r1 = (a1 ++ [32]) ++ r1 := by simp
    rw [this]
    exact List.drop_left' (by simp)
  rw [hr1] at d2
  have hr2 : s.drop (a1.length + 1 + a2.length + 1) = r2 := by
    rw [d1, d2]
    have : a1 ++ 32 :: (a2 ++ 32 :: r2) = (a1 ++ [32] ++ a2 ++ [32]) ++ r2 := by simp
    rw [this]
    exact List.drop_left' (by simp only [List.length_append, List.length_cons, List.length_nil])
  rw [hr2] at d3
  rw [d1, d2, d3]
  simp only [List.count_append, List.count_cons_self]
  omega

theorem strstrFrom_spec (pat : List Nat) (hpat : pat ≠ []) (s : List Nat) (k : Nat) :
    (¬ pat <:+: s ∧ strstrFrom pat s k = -1) ∨ (pat <:+: s ∧ (k : Int) ≤ strstrFrom pat s k) := by
  induction s generalizing k with
  | nil =>
    left
    refine ⟨fun h => hpat (List.infix_nil.mp h), ?_⟩
    simp [strstrFrom, hpat]
  | cons c t ih =>
    by_cases hp : (c :: t).take pat.length = pat
    · right
      have hpre : pat <+: c :: t := List.prefix_iff_eq_take.mpr hp.symm
      refine ⟨hpre.isInfix, ?_⟩
      rw [strstrFrom, if_pos hp]
    · have hnpre : ¬ pat <+: c :: t := fun h => hp (List.prefix_iff_eq_take.mp h).symm
      rw [strstrFrom, if_neg hp]
      rcases ih (k + 1) with ⟨hni, h⟩ | ⟨hi, h⟩
      · left
        refine ⟨fun hinf => ?_, h⟩
        rcases List.infix_cons_iff.mp hinf with h' | h'
        · exact hnpre h'
        · exact hni h'
      · right
        refine ⟨List.infix_cons_iff.mpr (Or.inr hi), ?_⟩
        have : ((k + 1 : Nat) : Int) = (k : Int) + 1 := by push_cast; rfl
        omega

/-- On a text that does not start with the pattern, `indexOf(pattern) > 0` says exactly that
the pattern occurs in the text. -/
theorem indexOfStr_pos_iff (s pat : List Nat) (hpat : pat ≠ []) (hnp : ¬ pat <+: s) :
    0 < indexOfStr s pat ↔ pat <:+: s := by
  cases s with
  | nil =>
    have hni : ¬ pat <:+: [] := fun h => hpat (List.infix_nil.mp h)
    simp [indexOfStr, hni]
  | cons c t =>
    have hp : ¬ (c :: t).take pat.length = pat :=
      fun h => hnp (List.prefix_iff_eq_take.mpr h.symm)
    have hlen : ¬ 0 ≥ (c :: t).length := by simp
    rw [indexOfStr, if_neg hlen, strstrFrom, if_neg hp]
    rcases strstrFrom_spec pat hpat t (0 + 1) with ⟨hni, h⟩ | ⟨hi, h⟩
    · rw [h]
      constructor
      · intro h0; exact absurd h0 (by decide)
      · intro hinf
        rcases List.infix_cons_iff.mp hinf with h' | h'
        · exact absurd h' hnp
        · exact absurd h' hni
    · constructor
      · intro _; exact List.infix_cons_iff.mpr (Or.inr hi)
      · intro _
        have : (((0 + 1 : Nat)) : Int) = 1 := rfl
        omega

theorem startsWith_iff (s pat : List Nat) : startsWith s pat = true ↔ pat <+: s := by
  unfold startsWith
  rw [beq_iff_eq, List.prefix_iff_eq_take]
  exact eq_comm

/-- A text that starts with `MODE` starts neither with `VEL`, nor with `MANUAL`, nor with `AI`. -/
theorem startsWith_MODE_excludes (s : List Nat) (h : startsWith s (str "MODE") = true) :
    startsWith s (str "VEL") = false ∧ ¬ str "MANUAL" <+: s ∧ ¬ str "AI" <+: s := by
  obtain ⟨t, rfl⟩ := (startsWith_iff _ _).mp h
  rw [str_MODE, str_VEL, str_MANUAL, str_AI]
  refine ⟨?_, ?_, ?_⟩
  · simp [startsWith]
  · simp [List.cons_prefix_cons]
  · simp [List.cons_prefix_cons]

/-- The value `safeParseFloat` returns when the characters it keeps, with `','` replaced by
`'.'`, are an optional minus sign, digits and an optional point followed by digits. -/
theorem safeParseFloat_eval (s : List Nat) (b : Bool) (ip fp : List (Fin 10)) (hasFrac : Bool)
    (h : replaceChar (s.filter (fun c => (decide (48 ≤ c) && decide (c ≤ 57)) ||
        decide (c = 45) || decide (c = 46) || decide (c = 44))) 44 46 =
      (if b then [45] else []) ++
        (ip.map digitChar ++ (if hasFrac then 46 :: fp.map digitChar else []))) :
    safeParseFloat s =
      (if b then -1 else 1) *
        ((decimalNat ip : ℚ) + (if hasFrac then (decimalNat fp : ℚ) / 10 ^ fp.length else 0)) := by
  unfold safeParseFloat
  simp only [h]
  exact toFloat_digits b ip fp hasFrac

theorem setCommand_keeps_mode (s : Drive) (vx vy w : ℚ) :
    (mecanumSetCommand s vx vy w).currentMode = s.currentMode := by
  simp only [mecanumSetCommand, mecanumOpenLoop, mecanumToWheelTargets]
  split_ifs <;> rfl

theorem setCommand_stores_vy (s : Drive) (vx vy w : ℚ) :
    (mecanumSetCommand s vx vy w).vy_cmd = vy := by
  simp only [mecanumSetCommand, mecanumOpenLoop, mecanumToWheelTargets]
  split_ifs <;> rfl

theorem usub_self (a : Nat) : usub a a = 0 := by
  unfold usub ULONG_MOD
  have h : a % 2 ^ 32 ≤ a := Nat.mod_le a _
  have h2 : a + 2 ^ 32 - a % 2 ^ 32 = (a - a % 2 ^ 32) + 2 ^ 32 := by omega
  rw [h2, Nat.add_mod_right]
  have h3 : a - a % 2 ^ 32 = 2 ^ 32 * (a / 2 ^ 32) := by
    have := Nat.div_add_mod a (2 ^ 32)
    omega
  rw [h3, Nat.mul_mod_right]

theorem elapsed_seconds_ge (n k : Nat) (h : k ≤ n) : (k : ℚ) / 1000 ≤ (n : ℚ) / 1000 := by
  have hk : (k : ℚ) ≤ (n : ℚ) := by exact_mod_cast h
  exact div_le_div_of_nonneg_right hk (by norm_num)

/-- An eligible call of `mecanumUpdatePID` in closed form: every wheel's `update` returns,
and the result holds the four new PID states and the four motors driven by the four
returned commands; only `pid`, `motors` and `lastPIDTime` change. -/
theorem mecanumUpdatePID_eq (s : Drive) (now : Nat)
    (hm : s.currentMode = ControlMode.MODE_AI) (hp : PID_PERIOD ≤ usub now s.lastPIDTime) :
    ∃ res : Fin 4 → PID × ℚ,
      (∀ i, (s.pid i).update (s.wheelTarget i) (s.wheelSpeed i)
        ((usub now s.lastPIDTime : ℚ) / 1000) = some (res i)) ∧
      mecanumUpdatePID s now =
        some { s with lastPIDTime := now,
                      pid := fun i => (res i).1,
                      motors := fun i => applyMotor (s.motors i) (res i).2 i } := by
  have hdt := elapsed_seconds_ne_zero (usub now s.lastPIDTime) PID_PERIOD
    (by rw [PID_PERIOD_eq]; norm_num) hp
  obtain ⟨p0, u0, h0, -⟩ := pidStep_some _ hdt s 0
  obtain ⟨p1, u1, h1, -⟩ := pidStep_some _ hdt s 1
  obtain ⟨p2, u2, h2, -⟩ := pidStep_some _ hdt s 2
  obtain ⟨p3, u3, h3, -⟩ := pidStep_some _ hdt s 3
  refine ⟨![(p0, u0), (p1, u1), (p2, u2), (p3, u3)], ?_, ?_⟩
  · intro i
    fin_cases i
    · exact h0
    · exact h1
    · exact h2
    · exact h3
  · have hnn : ¬ (s.currentMode ≠ ControlMode.MODE_AI) := not_not.mpr hm
    have hge : ¬ usub now s.lastPIDTime < PID_PERIOD := not_lt.mpr hp
    simp only [mecanumUpdatePID, if_neg hnn, if_neg hge]
    have e0 : pidStep ((usub now s.lastPIDTime : ℚ) / 1000) { s with lastPIDTime := now } 0 =
        some { s with lastPIDTime := now, pid := Function.update s.pid 0 p0,
                      motors := Function.update s.motors 0 (applyMotor (s.motors 0) u0 0) } := by
      simp only [pidStep, h0]
    rw [e0, Option.some_bind]
    have e1 : pidStep ((usub now s.lastPIDTime : ℚ) / 1000)
        { s with lastPIDTime := now, pid := Function.update s.pid 0 p0,
                 motors := Function.update s.motors 0 (applyMotor (s.motors 0) u0 0) } 1 =
        some { s with lastPIDTime := now,
                      pid := Function.update (Function.update s.pid 0 p0) 1 p1,
                      motors := Function.update
                        (Function.update s.motors 0 (applyMotor (s.motors 0) u0 0))
                        1 (applyMotor (s.motors 1) u1 1) } := by
      have hn : (1 : Fin 4) ≠ 0 := by decide
      simp only [pidStep, Function.update_noteq hn, h1]
    rw [e1, Option.some_bind]
    have e2 : pidStep ((usub now s.lastPIDTime : ℚ) / 1000)
        { s with lastPIDTime := now,
                 pid := Function.update (Function.update s.pid 0 p0) 1 p1,
                 motors := Function.update
                   (Function.update s.motors 0 (applyMotor (s.motors 0) u0 0))
                   1 (applyMotor (s.motors 1) u1 1) } 2 =
        some { s with lastPIDTime := now,
                      pid := Function.update
                        (Function.update (Function.update s.pid 0 p0) 1 p1) 2 p2,
                      motors := Function.update (Function.update
                        (Function.update s.motors 0 (applyMotor (s.motors 0) u0 0))
                        1 (applyMotor (s.motors 1) u1 1)) 2 (applyMotor (s.motors 2) u2 2) } := by
      have hn0 : (2 : Fin 4) ≠ 0 := by decide
      have hn1 : (2 : Fin 4) ≠ 1 := by decide
      simp only [pidStep, Function.update_noteq hn0, Function.update_noteq hn1, h2]
    rw [e2, Option.some_bind]
    have hn0 : (3 : Fin 4) ≠ 0 := by decide
    have hn1 : (3 : Fin 4) ≠ 1 := by decide
    have hn2 : (3 : Fin 4) ≠ 2 := by decide
    simp only [pidStep, Function.update_noteq hn0, Function.update_noteq hn1,
      Function.update_noteq hn2, h3]
    have hpid : Function.update (Function.update
        (Function.update (Function.update s.pid 0 p0) 1 p1) 2 p2) 3 p3 =
        fun i => ((![(p0, u0), (p1, u1), (p2, u2), (p3, u3)] : Fin 4 → PID × ℚ) i).1 := by
      funext i
      fin_cases i <;> simp [Function.update]
    have hmot : Function.update (Function.update (Function.update
        (Function.update s.motors 0 (applyMotor (s.motors 0) u0 0))
        1 (applyMotor (s.motors 1) u1 1)) 2 (applyMotor (s.motors 2) u2 2))
        3 (applyMotor (s.motors 3) u3 3) =
        fun i => applyMotor (s.motors i)
          ((![(p0, u0), (p1, u1), (p2, u2), (p3, u3)] : Fin 4 → PID × ℚ) i).2 i := by
      funext i
      fin_cases i <;> simp [Function.update]
    rw [hpid, hmot]


theorem absF_mul_sign (c : ℚ) (sgn : Int) (hs : sgn = 1 ∨ sgn = -1) :
    absF (c * (sgn : ℚ)) = |c| := by
  rw [absF_eq_abs, abs_mul]
  rcases hs with h | h <;> simp [h]

/-- The speed setting `applyMotor` computes: `floor(|c| * PWM_MAX)` limited to `PWM_MAX`. -/
theorem applyMotorSigned_speed (sgn : Int) (m : AF_DCMotor) (c : ℚ) (hs : sgn = 1 ∨ sgn = -1) :
    ((applyMotorSigned sgn m c).speed : Int) = min ⌊|c| * (PWM_MAX : ℚ)⌋ PWM_MAX := by
  have hnn : (0 : ℚ) ≤ |c| * (PWM_MAX : ℚ) := by
    have : (0 : ℚ) ≤ (PWM_MAX : ℚ) := by simp [PWM_MAX]
    exact mul_nonneg (abs_nonneg c) this
  have hfl : (0 : Int) ≤ ⌊|c| * (PWM_MAX : ℚ)⌋ := Int.floor_nonneg.mpr hnn
  have hspeed : ∀ d : MotorDir, ((((m.setSpeed (if truncToInt (absF (c * (sgn : ℚ)) * (PWM_MAX : ℚ)) > PWM_MAX
      then PWM_MAX else truncToInt (absF (c * (sgn : ℚ)) * (PWM_MAX : ℚ)))).run d).speed : Nat) : Int) =
      min ⌊|c| * (PWM_MAX : ℚ)⌋ PWM_MAX := by
    intro d
    rw [absF_mul_sign c sgn hs]
    simp only [truncToInt, if_pos hnn, AF_DCMotor.run, AF_DCMotor.setSpeed]
    by_cases hgt : ⌊|c| * (PWM_MAX : ℚ)⌋ > PWM_MAX
    · rw [if_pos hgt, min_eq_right (le_of_lt hgt)]
      simp [PWM_MAX]
    · rw [if_neg hgt, min_eq_left (not_lt.mp hgt)]
      have hle : ⌊|c| * (PWM_MAX : ℚ)⌋ ≤ 200 := not_lt.mp hgt
      have hmod : ⌊|c| * (PWM_MAX : ℚ)⌋ % 256 = ⌊|c| * (PWM_MAX : ℚ)⌋ :=
        Int.emod_eq_of_lt hfl (by omega)
      rw [hmod, Int.toNat_of_nonneg hfl]
  unfold applyMotorSigned
  simp only []
  by_cases h1 : c * (sgn : ℚ) > 0
  · rw [if_pos h1]; exact hspeed _
  · rw [if_neg h1]
    by_cases h2 : c * (sgn : ℚ) < 0
    · rw [if_pos h2]; exact hspeed _
    · rw [if_neg h2]; exact hspeed _

theorem applyMotorSigned_dir (sgn : Int) (m : AF_DCMotor) (c : ℚ) :
    (applyMotorSigned sgn m c).dir =
      if (sgn : ℚ) * c > 0 then MotorDir.BACKWARD
      else if (sgn : ℚ) * c < 0 then MotorDir.FORWARD
      else MotorDir.RELEASE := by
  unfold applyMotorSigned
  simp only [mul_comm (sgn : ℚ) c]
  split_ifs <;> rfl


/-- Every call of `mecanumUpdatePID` returns and changes at most `pid`, `motors` and
`lastPIDTime`. -/
theorem mecanumUpdatePID_frame (s : Drive) (now : Nat) :
    ∃ s2 : Drive, mecanumUpdatePID s now = some s2 ∧ s2.currentMode = s.currentMode ∧
      s2.wheelTarget = s.wheelTarget ∧ s2.wheelSpeed = s.wheelSpeed ∧
      s2.vx_cmd = s.vx_cmd ∧ s2.vy_cmd = s.vy_cmd ∧ s2.w_cmd = s.w_cmd := by
  by_cases hm : s.currentMode = ControlMode.MODE_AI
  · by_cases hp : PID_PERIOD ≤ usub now s.lastPIDTime
    · obtain ⟨res, -, h⟩ := mecanumUpdatePID_eq s now hm hp
      exact ⟨_, h, rfl, rfl, rfl, rfl, rfl, rfl⟩
    · have hnn : ¬ (s.currentMode ≠ ControlMode.MODE_AI) := not_not.mpr hm
      refine ⟨s, ?_, rfl, rfl, rfl, rfl, rfl, rfl⟩
      simp only [mecanumUpdatePID, if_neg hnn, if_pos (not_le.mp hp)]
  · refine ⟨s, ?_, rfl, rfl, rfl, rfl, rfl, rfl⟩
    simp only [mecanumUpdatePID, if_pos hm]

/-- Every call of `mecanumUpdateEncoders` returns and changes at most `wheelSpeed`,
`speedCount` and `lastSpeedTime`. -/
theorem mecanumUpdateEncoders_frame (s : Drive) (now : Nat) :
    ∃ (s2 : Drive) (out : List Serial3Out), mecanumUpdateEncoders s now = some (s2, out) ∧
      s2.currentMode = s.currentMode ∧ s2.wheelTarget = s.wheelTarget ∧
      s2.motors = s.motors ∧ s2.pid = s.pid ∧
      s2.vx_cmd = s.vx_cmd ∧ s2.vy_cmd = s.vy_cmd ∧ s2.w_cmd = s.w_cmd ∧
      s2.lastPIDTime = s.lastPIDTime := by
  by_cases h : usub now s.lastSpeedTime < 100
  · exact ⟨s, [], by simp only [mecanumUpdateEncoders, if_pos h],
      rfl, rfl, rfl, rfl, rfl, rfl, rfl, rfl⟩
  · exact ⟨_, _, mecanumUpdateEncoders_eq s now (not_lt.mp h),
      rfl, rfl, rfl, rfl, rfl, rfl, rfl, rfl⟩

theorem handleLine_buffer (r : Robot) (now : Nat) (line : List Nat) :
    (handleLine r now line).buffer = r.buffer := by
  unfold handleLine
  simp only []
  split_ifs <;> rfl

theorem isTerminator_iff (c : Nat) : isTerminator c = true ↔ (c = 10 ∨ c = 13) := by
  simp [isTerminator]

theorem protocolRun_append (s1 s2 : List (Nat × Nat)) (r : Robot) :
    protocolRun r (s1 ++ s2) =
      ((protocolRun (protocolRun r s1).1 s2).1,
        (protocolRun r s1).2 ++ (protocolRun (protocolRun r s1).1 s2).2) := by
  induction s1 generalizing r with
  | nil => simp [protocolRun]
  | cons ev rest ih =>
    show protocolRun r (ev :: (rest ++ s2)) = _
    rw [protocolRun, ih]
    simp only [protocolRun, List.append_assoc]

/-- What one iteration of the loop of `protocolUpdate` hands to `handleLine`: nothing, or
the non-empty buffer, which is then cleared. -/
theorem protocolStep_dispatch (r : Robot) (ev : Nat × Nat) :
    ((protocolStep r ev).2 = [] ∧
      ((ev.1 = 10 ∨ ev.1 = 13) → r.buffer = [] ∧ (protocolStep r ev).1 = r) ∧
      (¬ (ev.1 = 10 ∨ ev.1 = 13) → (protocolStep r ev).1 = { r with buffer := r.buffer ++ [ev.1] })) ∨
    ((ev.1 = 10 ∨ ev.1 = 13) ∧ r.buffer ≠ [] ∧ (protocolStep r ev).2 = [r.buffer] ∧
      (protocolStep r ev).1 = { handleLine r ev.2 r.buffer with buffer := [] } ∧
      (protocolStep r ev).1.buffer = []) := by
  by_cases ht : ev.1 = 10 ∨ ev.1 = 13
  · by_cases hb : r.buffer.length > 0
    · right
      have hne : r.buffer ≠ [] := List.ne_nil_of_length_pos hb
      have hs : protocolStep r ev =
          ({ handleLine r ev.2 r.buffer with buffer := [] }, [r.buffer]) := by
        simp only [protocolStep, if_pos ht, if_pos hb]
      rw [hs]
      exact ⟨ht, hne, rfl, rfl, rfl⟩
    · left
      have he : r.buffer = [] := List.length_eq_zero.mp (by omega)
      have hs : protocolStep r ev = (r, []) := by
        simp only [protocolStep, if_pos ht, if_neg hb]
      rw [hs]
      exact ⟨rfl, fun _ => ⟨he, rfl⟩, fun h => absurd ht h⟩
  · left
    have hs : protocolStep r ev = ({ r with buffer := r.buffer ++ [ev.1] }, []) := by
      simp only [protocolStep, if_neg ht]
    rw [hs]
    exact ⟨rfl, fun h => absurd h ht, fun _ => rfl⟩

theorem terminatedRuns_nil (B : List Nat) (hB : ∀ c ∈ B, isTerminator c = false) :
    terminatedRuns B [] = [] ∧ unterminatedRest B [] = B := by
  have h : (B ++ []).splitOnP isTerminator = [B] := by
    rw [List.append_nil]
    exact List.splitOnP_eq_single _ _ (fun x hx => by simp [hB x hx])
  rw [List.append_nil] at h
  simp [terminatedRuns, unterminatedRest, h]

theorem terminatedRuns_terminator (B rest : List Nat) (c : Nat)
    (hB : ∀ c ∈ B, isTerminator c = false) (hc : isTerminator c = true) :
    terminatedRuns B (c :: rest) =
      (if B.length > 0 then [B] else []) ++ terminatedRuns [] rest ∧
    unterminatedRest B (c :: rest) = unterminatedRest [] rest := by
  have h : (B ++ c :: rest).splitOnP isTerminator = B :: rest.splitOnP isTerminator :=
    List.splitOnP_first _ _ (fun x hx => by simp [hB x hx]) c hc rest
  have hne : rest.splitOnP isTerminator ≠ [] := List.splitOnP_ne_nil _ _
  obtain ⟨x, xs, hx⟩ := List.exists_cons_of_ne_nil hne
  constructor
  · simp only [terminatedRuns, h, List.nil_append, hx, List.dropLast_cons₂]
    by_cases hb : B.length > 0
    · have : B.isEmpty = false := by
        cases B with
        | nil => simp at hb
        | cons a t => rfl
      simp [hb, List.filter_cons, this]
    · have he : B = [] := List.length_eq_zero.mp (by omega)
      simp [he, List.filter_cons]
  · simp only [unterminatedRest, h, List.nil_append, hx, List.getLast?_cons_cons]

theorem terminatedRuns_byte (B rest : List Nat) (c : Nat) :
    terminatedRuns (B ++ [c]) rest = terminatedRuns B (c :: rest) ∧
    unterminatedRest (B ++ [c]) rest = unterminatedRest B (c :: rest) := by
  simp [terminatedRuns, unterminatedRest]

/-- The lines handed to `handleLine` by a run of the loop are the terminated non-empty runs
of the stream, and the buffer left is what follows the last terminator. -/
theorem protocolRun_frames (input : List (Nat × Nat)) (r : Robot)
    (hbuf : ∀ c ∈ r.buffer, isTerminator c = false) :
    (protocolRun r input).2 = terminatedRuns r.buffer (input.map Prod.fst) ∧
    (protocolRun r input).1.buffer = unterminatedRest r.buffer (input.map Prod.fst) ∧
    (∀ l ∈ (protocolRun r input).2, l ≠ [] ∧ ∀ c ∈ l, isTerminator c = false) ∧
    (∀ c ∈ (protocolRun r input).1.buffer, isTerminator c = false) := by
  induction input generalizing r with
  | nil =>
    have h := terminatedRuns_nil r.buffer hbuf
    have hr : protocolRun r [] = (r, []) := rfl
    rw [hr, List.map_nil, h.1, h.2]
    exact ⟨rfl, rfl, fun l hl => absurd hl (List.not_mem_nil l), hbuf⟩
  | cons ev rest ih =>
    simp only [protocolRun, List.map_cons]
    rcases protocolStep_dispatch r ev with ⟨hlog, hterm, hbyte⟩ | ⟨ht, hne, hlog, hst, hb0⟩
    · by_cases ht : ev.1 = 10 ∨ ev.1 = 13
      · obtain ⟨he, hst⟩ := hterm ht
        have hT := terminatedRuns_terminator r.buffer (rest.map Prod.fst) ev.1 hbuf
          ((isTerminator_iff _).mpr ht)
        have hi := ih r hbuf
        rw [hlog, hst, List.nil_append, hT.1, hT.2]
        rw [he] at hi ⊢
        simp only [List.length_nil, gt_iff_lt, lt_self_iff_false, if_false, List.nil_append]
        exact hi
      · have hst := hbyte ht
        have hnt : isTerminator ev.1 = false := by
          cases h : isTerminator ev.1
          · rfl
          · exact absurd ((isTerminator_iff _).mp h) ht
        have hbuf2 : ∀ c ∈ ({ r with buffer := r.buffer ++ [ev.1] } : Robot).buffer,
            isTerminator c = false := by
          intro c hc
          rcases List.mem_append.mp hc with h | h
          · exact hbuf c h
          · rw [List.mem_singleton.mp h]; exact hnt
        have hi := ih _ hbuf2
        have hT := terminatedRuns_byte r.buffer (rest.map Prod.fst) ev.1
        rw [hlog, hst, List.nil_append]
        rw [← hT.1, ← hT.2]
        exact hi
    · have hT := terminatedRuns_terminator r.buffer (rest.map Prod.fst) ev.1 hbuf
        ((isTerminator_iff _).mpr ht)
      have hlen : r.buffer.length > 0 := List.length_pos.mpr hne
      have hbuf2 : ∀ c ∈ (protocolStep r ev).1.buffer, isTerminator c = false := by
        rw [hb0]; intro c hc; exact absurd hc (List.not_mem_nil c)
      have hi := ih _ hbuf2
      rw [hb0] at hi
      rw [hlog, hT.1, hT.2, if_pos hlen]
      refine ⟨by rw [hi.1], hi.2.1, ?_, hi.2.2.2⟩
      intro l hl
      rcases List.mem_append.mp hl with h | h
      · rw [List.mem_singleton.mp h]
        exact ⟨hne, hbuf⟩
      · exact hi.2.2.1 l h

/-! ### Claims -/

/-- C1: in every state and either mode, `mecanumEmergencyStop` leaves the command at (0,0,0),
all four wheel targets at 0 and every motor at speed 0 and released, and calling it twice
gives the same state as calling it once. -/
theorem emergencyStop_zeroes_and_idempotent (s : Drive) :
    (mecanumEmergencyStop s).vx_cmd = 0 ∧ (mecanumEmergencyStop s).vy_cmd = 0 ∧
    (mecanumEmergencyStop s).w_cmd = 0 ∧
    (∀ i, (mecanumEmergencyStop s).wheelTarget i = 0) ∧
    (∀ i, (mecanumEmergencyStop s).motors i = { speed := 0, dir := MotorDir.RELEASE }) ∧
    mecanumEmergencyStop (mecanumEmergencyStop s) = mecanumEmergencyStop s := by
  refine ⟨rfl, rfl, rfl, fun _ => rfl, fun _ => ?_, ?_⟩
  · simp [mecanumEmergencyStop, AF_DCMotor.setSpeed, AF_DCMotor.run]
  · simp [mecanumEmergencyStop, AF_DCMotor.setSpeed, AF_DCMotor.run]

/-- C2: `protocolWatchdog` applies the emergency stop exactly when the unsigned difference
`now - lastCommandTime` is strictly greater than `WATCHDOG_TIMEOUT = 500`; otherwise it
changes nothing; it never modifies `lastCommandTime`, so every later overdue check stops again. -/
theorem protocolWatchdog_stops_iff_overdue (r : Robot) (now : Nat) :
    WATCHDOG_TIMEOUT = 500 ∧
    (now < 2 ^ 32 → r.lastCommandTime < 2 ^ 32 →
      usub now r.lastCommandTime =
        if r.lastCommandTime ≤ now then now - r.lastCommandTime
        else now + 2 ^ 32 - r.lastCommandTime) ∧
    (usub now r.lastCommandTime > WATCHDOG_TIMEOUT →
      protocolWatchdog r now = { r with drive := mecanumEmergencyStop r.drive }) ∧
    (usub now r.lastCommandTime ≤ WATCHDOG_TIMEOUT → protocolWatchdog r now = r) ∧
    (protocolWatchdog r now).lastCommandTime = r.lastCommandTime ∧
    (∀ later, usub later r.lastCommandTime > WATCHDOG_TIMEOUT →
      protocolWatchdog (protocolWatchdog r now) later =
        { protocolWatchdog r now with
            drive := mecanumEmergencyStop (protocolWatchdog r now).drive }) := by
  have hlast : (protocolWatchdog r now).lastCommandTime = r.lastCommandTime := by
    unfold protocolWatchdog
    split <;> rfl
  refine ⟨rfl, ?_, ?_, ?_, hlast, ?_⟩
  · intro hn hl
    unfold usub ULONG_MOD
    rw [Nat.mod_eq_of_lt hl]
    split_ifs with h
    · have : now + 2 ^ 32 - r.lastCommandTime = (now - r.lastCommandTime) + 2 ^ 32 := by omega
      rw [this, Nat.add_mod_right]
      exact Nat.mod_eq_of_lt (by omega)
    · exact Nat.mod_eq_of_lt (by omega)
  · intro h
    simp [protocolWatchdog, h]
  · intro h
    have h' : ¬ usub now r.lastCommandTime > WATCHDOG_TIMEOUT := by omega
    simp [protocolWatchdog, h']
  · intro later h
    have h' : usub later (protocolWatchdog r now).lastCommandTime > WATCHDOG_TIMEOUT := by
      rw [hlast]; exact h
    show (if usub later (protocolWatchdog r now).lastCommandTime > WATCHDOG_TIMEOUT then _
      else _) = _
    rw [if_pos h']

/-- Witness for C2: 600 ms after start the watchdog stops the drive and keeps the timestamp. -/
theorem protocolWatchdog_stops_iff_overdue_witness :
    usub 1600 (Robot.start 1000).lastCommandTime = 600 ∧
    protocolWatchdog (Robot.start 1000) 1600 =
      { Robot.start 1000 with drive := mecanumEmergencyStop (Robot.start 1000).drive } ∧
    (protocolWatchdog (Robot.start 1000) 1600).lastCommandTime = 1000 :=
  have h := protocolWatchdog_stops_iff_overdue (Robot.start 1000) 1600
  ⟨by decide, h.2.2.1 (by decide), h.2.2.2.2.1⟩

/-- C3: with raw values `r0 = vx - vy - w`, `r1 = vx + vy + w`, `r2 = vx - vy + w`,
`r3 = vx + vy - w` and `M = max(|r0|,|r1|,|r2|,|r3|)`, both mixers compute exactly `r` when
`M ≤ 1` and `r / M` when `M > 1`; they always agree; the open-loop mixer drives motor `i`
with its value and the closed-loop targets are `MAX_WHEEL_SPEED` times the same values. -/
theorem mixers_normalise_and_agree (vx vy w : ℚ) :
    (maxAbs4 (rawMix vx vy w) ≤ 1 →
      openLoopMix vx vy w = rawMix vx vy w ∧ wheelTargetsMix vx vy w = rawMix vx vy w) ∧
    (1 < maxAbs4 (rawMix vx vy w) →
      openLoopMix vx vy w = (fun i => rawMix vx vy w i / maxAbs4 (rawMix vx vy w)) ∧
      wheelTargetsMix vx vy w = (fun i => rawMix vx vy w i / maxAbs4 (rawMix vx vy w))) ∧
    openLoopMix vx vy w = wheelTargetsMix vx vy w ∧
    (∀ (s : Drive) (i : Fin 4), (mecanumOpenLoop s vx vy w).motors i =
      applyMotor (s.motors i) (openLoopMix vx vy w i) i) ∧
    (∀ (s : Drive) (i : Fin 4), (mecanumToWheelTargets s vx vy w).wheelTarget i =
      MAX_WHEEL_SPEED * openLoopMix vx vy w i) := by
  have ho := openLoopMix_eq vx vy w
  have ht := wheelTargetsMix_eq vx vy w
  have hagree : openLoopMix vx vy w = wheelTargetsMix vx vy w := by rw [ho, ht]
  refine ⟨?_, ?_, hagree, fun _ _ => rfl, ?_⟩
  · intro h
    rw [ho, ht, if_neg (not_lt.mpr h)]
    exact ⟨rfl, rfl⟩
  · intro h
    rw [ho, ht, if_pos h]
    exact ⟨rfl, rfl⟩
  · intro s i
    rw [hagree]
    simp only [mecanumToWheelTargets]
    ring

/-- Witness for C3: the command (1, 1, 1) has raw mix (-1, 3, 1, 1), which both mixers divide
by 3, and the command (1/2, 0, 0) is mixed unchanged. -/
theorem mixers_normalise_and_agree_witness :
    (1 < maxAbs4 (rawMix 1 1 1) ∧
      openLoopMix 1 1 1 = (fun i => rawMix 1 1 1 i / maxAbs4 (rawMix 1 1 1)) ∧
      wheelTargetsMix 1 1 1 = (fun i => rawMix 1 1 1 i / maxAbs4 (rawMix 1 1 1))) ∧
    (maxAbs4 (rawMix (1 / 2) 0 0) ≤ 1 ∧
      openLoopMix (1 / 2) 0 0 = rawMix (1 / 2) 0 0 ∧
      wheelTargetsMix (1 / 2) 0 0 = rawMix (1 / 2) 0 0) :=
  have h1 : 1 < maxAbs4 (rawMix 1 1 1) := by norm_num [maxAbs4, rawMix]
  have h2 : maxAbs4 (rawMix (1 / 2) 0 0) ≤ 1 := by norm_num [maxAbs4, rawMix, abs_of_pos]
  ⟨⟨h1, (mixers_normalise_and_agree 1 1 1).2.1 h1⟩,
   ⟨h2, (mixers_normalise_and_agree (1 / 2) 0 0).1 h2⟩⟩

/-- C4: every output of either mixer lies in `[-1, 1]`; and when some raw value has
magnitude above 1, the largest magnitude among the four outputs is exactly 1 and the outputs
are the raw values times one common positive factor. -/
theorem mix_outputs_in_unit_range (vx vy w : ℚ) :
    (∀ i, -1 ≤ openLoopMix vx vy w i ∧ openLoopMix vx vy w i ≤ 1) ∧
    (∀ i, -1 ≤ wheelTargetsMix vx vy w i ∧ wheelTargetsMix vx vy w i ≤ 1) ∧
    ((∃ i, 1 < |rawMix vx vy w i|) →
      (maxAbs4 (openLoopMix vx vy w) = 1 ∧
        ∃ k : ℚ, 0 < k ∧ ∀ i, openLoopMix vx vy w i = k * rawMix vx vy w i) ∧
      (maxAbs4 (wheelTargetsMix vx vy w) = 1 ∧
        ∃ k : ℚ, 0 < k ∧ ∀ i, wheelTargetsMix vx vy w i = k * rawMix vx vy w i)) := by
  have ho := openLoopMix_eq vx vy w
  have ht := wheelTargetsMix_eq vx vy w
  have hb := normalised_bounds (rawMix vx vy w)
  refine ⟨?_, ?_, ?_⟩
  · rw [ho]; exact hb.1
  · rw [ht]; exact hb.1
  · intro hex
    have h1 := hb.2 ((exists_abs_gt_one_iff (rawMix vx vy w)).mp hex)
    refine ⟨?_, ?_⟩
    · rw [ho]; exact h1
    · rw [ht]; exact h1

/-- Witness for C4: for the command (1, 1, 1) the raw value `r1 = 3` exceeds 1, and the largest
magnitude of the normalised outputs is 1. -/
theorem mix_outputs_in_unit_range_witness :
    1 < |rawMix 1 1 1 1| ∧ maxAbs4 (openLoopMix 1 1 1) = 1 ∧
      maxAbs4 (wheelTargetsMix 1 1 1) = 1 :=
  have h : 1 < |rawMix 1 1 1 1| := by norm_num [rawMix]
  ⟨h, ((mix_outputs_in_unit_range 1 1 1).2.2 ⟨1, h⟩).1.1,
    ((mix_outputs_in_unit_range 1 1 1).2.2 ⟨1, h⟩).2.1⟩

/-- C5: `mecanumSetCommand(vx, vy, w)` stores `(vx, vy, w2)` where `w2 = 0` if `|vx| < 0.1`,
`|vy| > 0.3` and `|w| > 0.3`, and `w2 = w` otherwise; `vx` and `vy` are stored unchanged, and
the mix (open loop in manual mode, wheel targets in AI mode) is computed from `(vx, vy, w2)`.
The command (0, 0.5, 0.5) is stored and mixed as (0, 0.5, 0); (0.2, 0.5, 0.5) is unchanged. -/
theorem setCommand_instability_clamp (s : Drive) (vx vy w : ℚ) :
    ((mecanumSetCommand s vx vy w).vx_cmd = vx ∧
      (mecanumSetCommand s vx vy w).vy_cmd = vy ∧
      (mecanumSetCommand s vx vy w).w_cmd = clampedW vx vy w) ∧
    (s.currentMode = ControlMode.MODE_MANUAL →
      mecanumSetCommand s vx vy w =
        mecanumOpenLoop { s with vx_cmd := vx, vy_cmd := vy, w_cmd := clampedW vx vy w }
          vx vy (clampedW vx vy w)) ∧
    (s.currentMode = ControlMode.MODE_AI →
      mecanumSetCommand s vx vy w =
        mecanumToWheelTargets { s with vx_cmd := vx, vy_cmd := vy, w_cmd := clampedW vx vy w }
          vx vy (clampedW vx vy w)) ∧
    (clampedW 0 (1 / 2) (1 / 2) = 0 ∧
      mecanumSetCommand s 0 (1 / 2) (1 / 2) = mecanumSetCommand s 0 (1 / 2) 0) ∧
    clampedW (1 / 5) (1 / 2) (1 / 2) = 1 / 2 := by
  have hw : (if absF vx < 1 / 10 ∧ absF vy > 3 / 10 ∧ absF w > 3 / 10 then 0 else w) =
      clampedW vx vy w := by
    simp only [absF_eq_abs, clampedW]
  have h12 : |(1 / 2 : ℚ)| = 1 / 2 := abs_of_pos (by norm_num)
  have h15 : |(1 / 5 : ℚ)| = 1 / 5 := abs_of_pos (by norm_num)
  refine ⟨⟨?_, ?_, ?_⟩, ?_, ?_, ⟨?_, ?_⟩, ?_⟩
  · simp only [mecanumSetCommand, mecanumOpenLoop, mecanumToWheelTargets]
    split_ifs <;> rfl
  · simp only [mecanumSetCommand, mecanumOpenLoop, mecanumToWheelTargets]
    split_ifs <;> rfl
  · rw [← hw]
    simp only [mecanumSetCommand, mecanumOpenLoop, mecanumToWheelTargets]
    split_ifs <;> rfl
  · intro hm
    rw [← hw]
    simp only [mecanumSetCommand, hm, if_true]
  · intro hm
    rw [← hw]
    have hne : ¬ (ControlMode.MODE_AI = ControlMode.MODE_MANUAL) := by decide
    simp only [mecanumSetCommand, hm, hne, if_false]
  · simp only [clampedW, abs_zero, h12]; norm_num
  · simp only [mecanumSetCommand, absF_eq_abs, abs_zero, h12]
    norm_num
  · simp only [clampedW, h15, h12]; norm_num

/-- Witness for C5: in the start state (manual mode) the command (0, 0.5, 0.5) is stored with
`w = 0` and applied open loop as (0, 0.5, 0). -/
theorem setCommand_instability_clamp_witness :
    Drive.static.currentMode = ControlMode.MODE_MANUAL ∧
    mecanumSetCommand Drive.static 0 (1 / 2) (1 / 2) =
      mecanumOpenLoop { Drive.static with
        vx_cmd := 0, vy_cmd := 1 / 2, w_cmd := clampedW 0 (1 / 2) (1 / 2) }
        0 (1 / 2) (clampedW 0 (1 / 2) (1 / 2)) :=
  ⟨rfl, (setCommand_instability_clamp Drive.static 0 (1 / 2) (1 / 2)).2.1 rfl⟩

/-- C6: for `outMin ≤ outMax` and `dt ≠ 0`, `PID::update` returns
`raw = kp*error + ki*candidateIntegral + kd*filteredDerivative2` clamped into `[outMin, outMax]`,
with `error = target - measure`, `candidateIntegral = integral + error*dt` and
`filteredDerivative2 = alpha*((error - prevErr)/dt) + (1 - alpha)*filteredDerivative`; afterwards
`prevErr = error`, the filtered derivative is `filteredDerivative2`, and gains, bounds and
`alpha` are unchanged. -/
theorem PID_update_computes_clamped_output (p : PID) (target measure dt : ℚ)
    (hb : p.outMin ≤ p.outMax) (hdt : dt ≠ 0) :
    p.rawOut target measure dt =
      p.kp * (target - measure) + p.ki * (p.integral + (target - measure) * dt) +
        p.kd * (p.alpha * ((target - measure - p.prevErr) / dt) +
          (1 - p.alpha) * p.derivFilter) ∧
    ∃ p2 : PID,
      p.update target measure dt =
        some (p2, max p.outMin (min (p.rawOut target measure dt) p.outMax)) ∧
      (p.outMin ≤ max p.outMin (min (p.rawOut target measure dt) p.outMax) ∧
        max p.outMin (min (p.rawOut target measure dt) p.outMax) ≤ p.outMax) ∧
      p2.prevErr = target - measure ∧
      p2.derivFilter = p.alpha * ((target - measure - p.prevErr) / dt) +
        (1 - p.alpha) * p.derivFilter ∧
      p2.kp = p.kp ∧ p2.ki = p.ki ∧ p2.kd = p.kd ∧
      p2.outMin = p.outMin ∧ p2.outMax = p.outMax ∧ p2.alpha = p.alpha := by
  refine ⟨rfl, ?_⟩
  rw [PID_update_eq p target measure dt hdt]
  by_cases h1 : p.rawOut target measure dt > p.outMax
  · rw [if_pos h1, min_eq_right (le_of_lt h1), max_eq_right hb]
    exact ⟨_, rfl, ⟨hb, le_refl _⟩, rfl, rfl, rfl, rfl, rfl, rfl, rfl, rfl⟩
  · rw [if_neg h1]
    by_cases h2 : p.rawOut target measure dt < p.outMin
    · rw [if_pos h2, min_eq_left (not_lt.mp h1), max_eq_left (le_of_lt h2)]
      exact ⟨_, rfl, ⟨le_refl _, hb⟩, rfl, rfl, rfl, rfl, rfl, rfl, rfl, rfl⟩
    · rw [if_neg h2, min_eq_left (not_lt.mp h1), max_eq_right (not_lt.mp h2)]
      exact ⟨_, rfl, ⟨not_lt.mp h2, not_lt.mp h1⟩, rfl, rfl, rfl, rfl, rfl, rfl, rfl, rfl⟩

/-- Witness for C6: the wheel controller of the program (gains 0.005, 0, 0, bounds -1 and 1)
at target 100, measure 0 and dt = 20 ms returns 0.005 * 100 = 1/2. -/
theorem PID_update_computes_clamped_output_witness :
    ((-1 : ℚ) ≤ 1 ∧ (1 / 50 : ℚ) ≠ 0) ∧
    ∃ p2 : PID, (PID.init PID.default (5 / 1000) 0 0 (-1) 1).update 100 0 (1 / 50) =
      some (p2, 1 / 2) ∧ p2.prevErr = 100 := by
  refine ⟨⟨by norm_num, by norm_num⟩, ?_⟩
  obtain ⟨-, p2, h1, -, h2, -⟩ :=
    PID_update_computes_clamped_output (PID.init PID.default (5 / 1000) 0 0 (-1) 1) 100 0 (1 / 50)
      (by norm_num [PID.init]) (by norm_num)
  refine ⟨p2, ?_, ?_⟩
  · rw [h1]
    norm_num [PID.rawOut, PID.init, PID.default]
  · rw [h2]
    norm_num

/-- C7: a call of `PID::update` (with `dt ≠ 0`) stores `integral + error*dt` when the
unsaturated output lies within `[outMin, outMax]` and leaves the stored integral exactly
unchanged when the unsaturated output is above `outMax` or below `outMin`; hence over a run
of consecutive calls that all saturate, the integral after each call is the value it had
before the first of them. -/
theorem PID_antiwindup_freezes_integral (p : PID) :
    (∀ target measure dt : ℚ, dt ≠ 0 →
      ∃ (p2 : PID) (u : ℚ), p.update target measure dt = some (p2, u) ∧
        (p.outMin ≤ p.rawOut target measure dt ∧ p.rawOut target measure dt ≤ p.outMax →
          p2.integral = p.integral + (target - measure) * dt) ∧
        (p.rawOut target measure dt > p.outMax ∨ p.rawOut target measure dt < p.outMin →
          p2.integral = p.integral)) ∧
    (∀ steps : List (ℚ × ℚ × ℚ), p.allSaturate steps →
      ∃ tr : List (PID × ℚ), p.trace steps = some tr ∧ tr.length = steps.length ∧
        ∀ x ∈ tr, x.1.integral = p.integral) := by
  constructor
  · intro target measure dt hdt
    rw [PID_update_eq p target measure dt hdt]
    by_cases h1 : p.rawOut target measure dt > p.outMax
    · rw [if_pos h1]
      exact ⟨_, _, rfl, fun h => absurd h.2 (not_le.mpr h1), fun _ => rfl⟩
    · rw [if_neg h1]
      by_cases h2 : p.rawOut target measure dt < p.outMin
      · rw [if_pos h2]
        exact ⟨_, _, rfl, fun h => absurd h.1 (not_le.mpr h2), fun _ => rfl⟩
      · rw [if_neg h2]
        exact ⟨_, _, rfl, fun _ => rfl, fun h => (h.elim (absurd · h1) (absurd · h2))⟩
  · intro steps
    induction steps generalizing p with
    | nil =>
      intro _
      exact ⟨[], rfl, rfl, fun x hx => absurd hx (List.not_mem_nil x)⟩
    | cons step rest ih =>
      obtain ⟨target, measure, dt⟩ := step
      intro hall
      obtain ⟨hdt, hsat, hrest⟩ := hall
      have hupd := PID_update_eq p target measure dt hdt
      have hfreeze : ∃ (p2 : PID) (u : ℚ), p.update target measure dt = some (p2, u) ∧
          p2.integral = p.integral := by
        rw [hupd]
        by_cases h1 : p.rawOut target measure dt > p.outMax
        · rw [if_pos h1]; exact ⟨_, _, rfl, rfl⟩
        · rw [if_neg h1]
          have h2 : p.rawOut target measure dt < p.outMin := hsat.resolve_left h1
          rw [if_pos h2]; exact ⟨_, _, rfl, rfl⟩
      obtain ⟨p2, u, hp2, hint⟩ := hfreeze
      rw [hp2] at hrest
      obtain ⟨tr, htr, hlen, hmem⟩ := ih p2 hrest
      refine ⟨(p2, u) :: tr, ?_, ?_, ?_⟩
      · simp only [PID.trace, hp2, htr]
      · simp only [List.length_cons, hlen]
      · intro x hx
        rcases List.mem_cons.mp hx with rfl | hx
        · exact hint
        · rw [hmem x hx, hint]

/-- Witness for C7: with gains (1, 1, 0), bounds -1 and 1 and a constant error of 10, three
consecutive calls all saturate and the integral stays at its initial value 0 after each. -/
theorem PID_antiwindup_freezes_integral_witness :
    (PID.init PID.default 1 1 0 (-1) 1).allSaturate [(10, 0, 1), (10, 0, 1), (10, 0, 1)] ∧
    ∃ tr : List (PID × ℚ),
      (PID.init PID.default 1 1 0 (-1) 1).trace [(10, 0, 1), (10, 0, 1), (10, 0, 1)] = some tr ∧
      tr.length = 3 ∧ ∀ x ∈ tr, x.1.integral = 0 :=
  have hall : (PID.init PID.default 1 1 0 (-1) 1).allSaturate
      [(10, 0, 1), (10, 0, 1), (10, 0, 1)] := by
    norm_num [PID.allSaturate, PID.saturates, PID.rawOut, PID.update, fdiv, PID.init, PID.default]
  ⟨hall, (PID_antiwindup_freezes_integral (PID.init PID.default 1 1 0 (-1) 1)).2 _ hall⟩

/-- C8, as the code behaves: `PID::update` has no guard for `dt == 0`. Called with `dt = 0`
on the program's wheel controller it executes the division by `dt`, so it is not a no-update
returning a value with the state left as it was. -/
theorem PID_update_dt_zero_not_guarded :
    (PID.init PID.default (5 / 1000) 0 0 (-1) 1).update 1 0 0 = none ∧
    ¬ ∃ u : ℚ, (PID.init PID.default (5 / 1000) 0 0 (-1) 1).update 1 0 0 =
      some (PID.init PID.default (5 / 1000) 0 0 (-1) 1, u) := by
  have h : (PID.init PID.default (5 / 1000) 0 0 (-1) 1).update 1 0 0 = none := by
    simp [PID.update, fdiv]
  refine ⟨h, ?_⟩
  rintro ⟨u, hu⟩
  rw [h] at hu
  exact Option.noConfusion hu

/-- C8 amended: `PID::update` divides `error - prevErr` by `dt` without a guard, so it
divides by zero exactly when `dt = 0` and returns a command and a new state exactly when
`dt ≠ 0`. -/
theorem PID_update_divides_by_zero_iff (p : PID) (target measure dt : ℚ) :
    (p.update target measure dt = none ↔ dt = 0) ∧
    ((∃ (p2 : PID) (u : ℚ), p.update target measure dt = some (p2, u)) ↔ dt ≠ 0) := by
  by_cases hdt : dt = 0
  · have h : p.update target measure dt = none := by
      simp [PID.update, fdiv, hdt]
    refine ⟨⟨fun _ => hdt, fun _ => h⟩, ⟨?_, fun hne => absurd hdt hne⟩⟩
    rintro ⟨p2, u, hu⟩
    rw [h] at hu
    exact Option.noConfusion hu
  · have h := PID_update_eq p target measure dt hdt
    have hsome : ∃ (p2 : PID) (u : ℚ), p.update target measure dt = some (p2, u) := by
      rw [h]
      split_ifs
      · exact ⟨_, _, rfl⟩
      · exact ⟨_, _, rfl⟩
      · exact ⟨_, _, rfl⟩
    refine ⟨⟨?_, fun h0 => absurd h0 hdt⟩, ⟨fun _ => hdt, fun _ => hsome⟩⟩
    intro hnone
    obtain ⟨p2, u, hu⟩ := hsome
    rw [hnone] at hu
    exact Option.noConfusion hu

/-- C9, as the code behaves: with bounds `outMin = 1`, `outMax = 2` a freshly initialised
controller called with `target == measure` returns `outMin = 1`, not 0. -/
theorem PID_zero_error_output_saturates_to_bound :
    (PID.init PID.default 0 0 0 1 2).trace [(0, 0, 1)] =
      some [({ PID.init PID.default 0 0 0 1 2 with derivFilter := 0, prevErr := 0 }, 1)] ∧
    (1 : ℚ) ≠ 0 := by
  constructor
  · norm_num [PID.trace, PID.update, fdiv, PID.init, PID.default]
  · norm_num

/-- C9 amended: `init` sets integral, previous error and filtered derivative to 0 and stores
the given gains and bounds; from there, for every sequence of `update` calls with
`target == measure` and `dt > 0`, every call returns, and integral, previous error and
filtered derivative remain 0 after each call; every returned output is 0 provided the bounds
satisfy `outMin ≤ 0 ≤ outMax`. -/
theorem PID_zero_error_steady_state (p : PID) (kp ki kd mn mx : ℚ)
    (steps : List (ℚ × ℚ × ℚ)) (hsteps : ∀ x ∈ steps, x.1 = x.2.1 ∧ 0 < x.2.2) :
    ((p.init kp ki kd mn mx).integral = 0 ∧ (p.init kp ki kd mn mx).prevErr = 0 ∧
      (p.init kp ki kd mn mx).derivFilter = 0) ∧
    ((p.init kp ki kd mn mx).kp = kp ∧ (p.init kp ki kd mn mx).ki = ki ∧
      (p.init kp ki kd mn mx).kd = kd ∧ (p.init kp ki kd mn mx).outMin = mn ∧
      (p.init kp ki kd mn mx).outMax = mx) ∧
    ∃ tr : List (PID × ℚ), (p.init kp ki kd mn mx).trace steps = some tr ∧
      tr.length = steps.length ∧
      (∀ x ∈ tr, x.1.integral = 0 ∧ x.1.prevErr = 0 ∧ x.1.derivFilter = 0) ∧
      (mn ≤ 0 → 0 ≤ mx → ∀ x ∈ tr, x.2 = 0) :=
  ⟨⟨rfl, rfl, rfl⟩, ⟨rfl, rfl, rfl, rfl, rfl⟩,
    PID_trace_zero_error steps hsteps (p.init kp ki kd mn mx) ⟨rfl, rfl, rfl⟩⟩

/-- Witness for C9: the program's wheel controller (bounds -1 and 1) held at target = measure
for two calls returns 0 both times. -/
theorem PID_zero_error_steady_state_witness :
    (∀ x ∈ [((7 : ℚ), (7 : ℚ), (1 / 50 : ℚ)), (3, 3, 1 / 10)], x.1 = x.2.1 ∧ 0 < x.2.2) ∧
    ∃ tr : List (PID × ℚ),
      (PID.init PID.default (5 / 1000) 0 0 (-1) 1).trace [(7, 7, 1 / 50), (3, 3, 1 / 10)] =
        some tr ∧
      tr.length = 2 ∧ ∀ x ∈ tr, x.2 = 0 := by
  have hsteps : ∀ x ∈ [((7 : ℚ), (7 : ℚ), (1 / 50 : ℚ)), (3, 3, 1 / 10)],
      x.1 = x.2.1 ∧ 0 < x.2.2 := by
    intro x hx
    simp only [List.mem_cons, List.mem_singleton, List.not_mem_nil, or_false] at hx
    rcases hx with rfl | rfl <;> norm_num
  obtain ⟨tr, h1, h2, -, h4⟩ :=
    (PID_zero_error_steady_state PID.default (5 / 1000) 0 0 (-1) 1 _ hsteps).2.2
  exact ⟨hsteps, tr, h1, h2, h4 (by norm_num) (by norm_num)⟩

/-- C10, as the code behaves: drive at full speed in manual mode, switch to AI mode and
command (1, 0, 0), so that the wheel targets are 500; `mecanumSetMode(MODE_MANUAL)` then
releases motor 0 but leaves its speed setting at 200, not 0. -/
theorem setMode_manual_keeps_speed_setting :
    (mecanumSetCommand (mecanumSetMode (mecanumSetCommand Drive.static 1 0 0)
      ControlMode.MODE_AI) 1 0 0).wheelTarget 0 = 500 ∧
    (mecanumSetMode
      (mecanumSetCommand (mecanumSetMode (mecanumSetCommand Drive.static 1 0 0)
        ControlMode.MODE_AI) 1 0 0) ControlMode.MODE_MANUAL).motors 0 =
      { speed := 200, dir := MotorDir.RELEASE } ∧
    ((mecanumSetMode
      (mecanumSetCommand (mecanumSetMode (mecanumSetCommand Drive.static 1 0 0)
        ControlMode.MODE_AI) 1 0 0) ControlMode.MODE_MANUAL).motors 0).speed ≠ 0 := by
  have hm : (mecanumSetMode
      (mecanumSetCommand (mecanumSetMode (mecanumSetCommand Drive.static 1 0 0)
        ControlMode.MODE_AI) 1 0 0) ControlMode.MODE_MANUAL).motors 0 =
      { speed := 200, dir := MotorDir.RELEASE } := by
    simp [mecanumSetMode, mecanumSetCommand, mecanumOpenLoop, mecanumToWheelTargets,
      Drive.static, openLoopMix, absF, maxF, applyMotor, motorSign, truncToInt, PWM_MAX,
      AF_DCMotor.setSpeed, AF_DCMotor.run]
  refine ⟨?_, hm, ?_⟩
  · simp [mecanumSetMode, mecanumSetCommand, mecanumOpenLoop, mecanumToWheelTargets,
      Drive.static, wheelTargetsMix, absF, maxF, MAX_WHEEL_SPEED]
  · rw [hm]
    decide

/-- C10 amended: for every state and every mode `m`, `mecanumSetMode(m)` leaves the mode equal
to `m`, the body-velocity command equal to (0, 0, 0) and all four wheel targets equal to 0;
when `m` is Manual it immediately releases all four actuators, each keeping the speed setting
it had. -/
theorem setMode_zeroes_targets_and_releases (s : Drive) (m : ControlMode) :
    (mecanumSetMode s m).currentMode = m ∧
    ((mecanumSetMode s m).vx_cmd = 0 ∧ (mecanumSetMode s m).vy_cmd = 0 ∧
      (mecanumSetMode s m).w_cmd = 0) ∧
    (∀ i, (mecanumSetMode s m).wheelTarget i = 0) ∧
    (m = ControlMode.MODE_MANUAL →
      ∀ i, (mecanumSetMode s m).motors i =
        { speed := (s.motors i).speed, dir := MotorDir.RELEASE }) := by
  cases m
  · exact ⟨rfl, ⟨rfl, rfl, rfl⟩, fun _ => rfl, fun _ _ => rfl⟩
  · refine ⟨rfl, ⟨rfl, rfl, rfl⟩, fun _ => rfl, fun h => ?_⟩
    exact ControlMode.noConfusion h

/-- Witness for C10: switching the start state to manual mode releases motor 0. -/
theorem setMode_zeroes_targets_and_releases_witness :
    (mecanumSetMode Drive.static ControlMode.MODE_MANUAL).motors 0 =
      { speed := (Drive.static.motors 0).speed, dir := MotorDir.RELEASE } :=
  (setMode_zeroes_targets_and_releases Drive.static ControlMode.MODE_MANUAL).2.2.2 rfl 0

/-- C11: `mecanumSetCommand` dispatches on the mode and touches nothing else. In Manual mode
it drives each actuator `i` with the normalised mix value `m_i` and leaves wheel targets and
PID state unchanged; in AI mode it sets `wheelTarget[i] = m_i * MAX_WHEEL_SPEED` (500) and
leaves every actuator and all PID state unchanged. Apart from that only the stored command
changes. -/
theorem setCommand_dispatches_on_mode (s : Drive) (vx vy w : ℚ) :
    MAX_WHEEL_SPEED = 500 ∧
    (s.currentMode = ControlMode.MODE_MANUAL →
      mecanumSetCommand s vx vy w =
        { s with vx_cmd := vx, vy_cmd := vy, w_cmd := clampedW vx vy w,
                 motors := fun i =>
                   applyMotor (s.motors i) (openLoopMix vx vy (clampedW vx vy w) i) i } ∧
      (mecanumSetCommand s vx vy w).wheelTarget = s.wheelTarget ∧
      (mecanumSetCommand s vx vy w).pid = s.pid) ∧
    (s.currentMode = ControlMode.MODE_AI →
      mecanumSetCommand s vx vy w =
        { s with vx_cmd := vx, vy_cmd := vy, w_cmd := clampedW vx vy w,
                 wheelTarget := fun i =>
                   wheelTargetsMix vx vy (clampedW vx vy w) i * MAX_WHEEL_SPEED } ∧
      (mecanumSetCommand s vx vy w).motors = s.motors ∧
      (mecanumSetCommand s vx vy w).pid = s.pid) := by
  have hw : (if absF vx < 1 / 10 ∧ absF vy > 3 / 10 ∧ absF w > 3 / 10 then 0 else w) =
      clampedW vx vy w := by
    simp only [absF_eq_abs, clampedW]
  refine ⟨rfl, ?_, ?_⟩
  · intro hm
    have h : mecanumSetCommand s vx vy w =
        { s with vx_cmd := vx, vy_cmd := vy, w_cmd := clampedW vx vy w,
                 motors := fun i =>
                   applyMotor (s.motors i) (openLoopMix vx vy (clampedW vx vy w) i) i } := by
      rw [← hw]
      simp only [mecanumSetCommand, hm, if_true, mecanumOpenLoop]
    rw [h]
    exact ⟨rfl, rfl, rfl⟩
  · intro hm
    have hne : ¬ (ControlMode.MODE_AI = ControlMode.MODE_MANUAL) := by decide
    have h : mecanumSetCommand s vx vy w =
        { s with vx_cmd := vx, vy_cmd := vy, w_cmd := clampedW vx vy w,
                 wheelTarget := fun i =>
                   wheelTargetsMix vx vy (clampedW vx vy w) i * MAX_WHEEL_SPEED } := by
      rw [← hw]
      simp only [mecanumSetCommand, hm, hne, if_false, mecanumToWheelTargets]
    rw [h]
    exact ⟨rfl, rfl, rfl⟩

/-- Witness for C11: in the start state (Manual mode) the command (1, 0, 0) leaves the wheel
targets as they were. -/
theorem setCommand_dispatches_on_mode_witness :
    Drive.static.currentMode = ControlMode.MODE_MANUAL ∧
    (mecanumSetCommand Drive.static 1 0 0).wheelTarget = Drive.static.wheelTarget :=
  ⟨rfl, ((setCommand_dispatches_on_mode Drive.static 1 0 0).2.1 rfl).2.1⟩

/-- C12: `mecanumUpdatePID` changes nothing when the mode is Manual, and nothing when the
mode is AI but fewer than `PID_PERIOD = 20` milliseconds (unsigned difference) have elapsed
since `lastPIDTime`: the whole drive state, with PID state, actuators, targets and
`lastPIDTime`, is returned as it was. -/
theorem updatePID_noop_when_gated (s : Drive) (now : Nat) :
    PID_PERIOD = 20 ∧
    (s.currentMode = ControlMode.MODE_MANUAL → mecanumUpdatePID s now = some s) ∧
    (s.currentMode = ControlMode.MODE_AI → usub now s.lastPIDTime < PID_PERIOD →
      mecanumUpdatePID s now = some s) := by
  refine ⟨PID_PERIOD_eq, ?_, ?_⟩
  · intro hm
    have hne : s.currentMode ≠ ControlMode.MODE_AI := by rw [hm]; decide
    simp only [mecanumUpdatePID, if_pos hne]
  · intro hm hlt
    have hnn : ¬ (s.currentMode ≠ ControlMode.MODE_AI) := not_not.mpr hm
    simp only [mecanumUpdatePID, if_neg hnn, if_pos hlt]

/-- Witness for C12: in AI mode, 19 ms after the last service, the PID service is a no-op. -/
theorem updatePID_noop_when_gated_witness :
    (mecanumSetMode Drive.static ControlMode.MODE_AI).currentMode = ControlMode.MODE_AI ∧
    usub 19 (mecanumSetMode Drive.static ControlMode.MODE_AI).lastPIDTime < PID_PERIOD ∧
    mecanumUpdatePID (mecanumSetMode Drive.static ControlMode.MODE_AI) 19 =
      some (mecanumSetMode Drive.static ControlMode.MODE_AI) :=
  have h1 : (mecanumSetMode Drive.static ControlMode.MODE_AI).currentMode =
      ControlMode.MODE_AI := rfl
  have h2 : usub 19 (mecanumSetMode Drive.static ControlMode.MODE_AI).lastPIDTime <
      PID_PERIOD := by
    rw [PID_PERIOD_eq]; decide
  ⟨h1, h2, (updatePID_noop_when_gated (mecanumSetMode Drive.static ControlMode.MODE_AI) 19).2.2
    h1 h2⟩

/-- C18: a capture event adds +1 to both `ticks[i]` and `speedCount[i]` when channel B is
high and -1 to both otherwise, and touches no other wheel; the swap of the velocity
estimation returns `speedCount[i]`, clears it in the same step and never modifies `ticks`.
Hence after every interleaving of capture events and swaps from the zero state, for every
wheel `ticks = (sum of the deltas consumed so far) + speedCount`. A call of
`mecanumUpdateEncoders` consumes nothing before 100 ms have elapsed, and otherwise performs
the four swaps and divides exactly the deltas they consumed. -/
theorem encoder_ticks_conserved (s : Drive) (events : List EncEvent) (now : Nat) :
    (∀ i, (handleEncoder s i true).ticks i = s.ticks i + 1 ∧
      (handleEncoder s i true).speedCount i = s.speedCount i + 1 ∧
      (handleEncoder s i false).ticks i = s.ticks i - 1 ∧
      (handleEncoder s i false).speedCount i = s.speedCount i - 1) ∧
    (∀ i j b, j ≠ i → (handleEncoder s i b).ticks j = s.ticks j ∧
      (handleEncoder s i b).speedCount j = s.speedCount j) ∧
    (∀ i, (swapSpeedCount s i).2 = s.speedCount i ∧
      (swapSpeedCount s i).1.speedCount i = 0 ∧
      (swapSpeedCount s i).1.ticks = s.ticks ∧
      ∀ j, j ≠ i → (swapSpeedCount s i).1.speedCount j = s.speedCount j) ∧
    ((∀ i, s.ticks i = 0 ∧ s.speedCount i = 0) →
      ∀ i, (encRun (s, fun _ => 0) events).1.ticks i =
        (encRun (s, fun _ => 0) events).2 i + (encRun (s, fun _ => 0) events).1.speedCount i) ∧
    (usub now s.lastSpeedTime < 100 → mecanumUpdateEncoders s now = some (s, [])) ∧
    (100 ≤ usub now s.lastSpeedTime →
      ∃ (s2 : Drive) (out : List Serial3Out), mecanumUpdateEncoders s now = some (s2, out) ∧
        s2.ticks = (encRun (s, fun _ => 0)
          [EncEvent.swap 0, EncEvent.swap 1, EncEvent.swap 2, EncEvent.swap 3]).1.ticks ∧
        s2.speedCount = (encRun (s, fun _ => 0)
          [EncEvent.swap 0, EncEvent.swap 1, EncEvent.swap 2, EncEvent.swap 3]).1.speedCount ∧
        ∀ i, s2.wheelSpeed i = (((encRun (s, fun _ => 0)
          [EncEvent.swap 0, EncEvent.swap 1, EncEvent.swap 2, EncEvent.swap 3]).2 i : Int) : ℚ) /
            ((usub now s.lastSpeedTime : ℚ) / 1000)) := by
  refine ⟨?_, ?_, ?_, ?_, ?_, ?_⟩
  · intro i
    simp [handleEncoder]
  · intro i j b hji
    cases b <;> simp [handleEncoder, Function.update_noteq hji]
  · intro i
    refine ⟨rfl, by simp [swapSpeedCount], rfl, fun j hji => ?_⟩
    simp [swapSpeedCount, Function.update_noteq hji]
  · intro h0
    apply encRun_conserves
    intro i
    simp [(h0 i).1, (h0 i).2]
  · intro hlt
    simp only [mecanumUpdateEncoders, if_pos hlt]
  · intro hge
    refine ⟨_, _, mecanumUpdateEncoders_eq s now hge, ?_, ?_, ?_⟩
    · simp [encRun, encStep, swapSpeedCount]
    · funext i
      fin_cases i <;> simp [encRun, encStep, swapSpeedCount, Function.update]
    · intro i
      fin_cases i <;> simp [encRun, encStep, swapSpeedCount, Function.update]

/-- Witness for C18: from the start state, two forward ticks on wheel 1, a swap of wheel 1,
then one backward tick: position 1 = consumed 2 + pending -1. -/
theorem encoder_ticks_conserved_witness :
    (∀ i, Drive.static.ticks i = 0 ∧ Drive.static.speedCount i = 0) ∧
    (encRun (Drive.static, fun _ => 0)
      [EncEvent.capture 1 true, EncEvent.capture 1 true, EncEvent.swap 1,
        EncEvent.capture 1 false]).1.ticks 1 =
      (encRun (Drive.static, fun _ => 0)
        [EncEvent.capture 1 true, EncEvent.capture 1 true, EncEvent.swap 1,
          EncEvent.capture 1 false]).2 1 +
      (encRun (Drive.static, fun _ => 0)
        [EncEvent.capture 1 true, EncEvent.capture 1 true, EncEvent.swap 1,
          EncEvent.capture 1 false]).1.speedCount 1 ∧
    (encRun (Drive.static, fun _ => 0)
      [EncEvent.capture 1 true, EncEvent.capture 1 true, EncEvent.swap 1,
        EncEvent.capture 1 false]).2 1 = 2 :=
  have h0 : ∀ i, Drive.static.ticks i = 0 ∧ Drive.static.speedCount i = 0 :=
    fun _ => ⟨rfl, rfl⟩
  ⟨h0, (encoder_ticks_conserved Drive.static _ 0).2.2.2.1 h0 1, by decide⟩

/-- C19: on every call of `mecanumUpdateEncoders` at which at least 100 ms (unsigned
difference) have elapsed since `lastSpeedTime`, whatever the mode, each `wheelSpeed[i]`
becomes `d_i / dt` with `d_i` the pending delta and `dt = elapsed / 1000` seconds, every
pending delta becomes 0, `lastSpeedTime` becomes `now`, the telemetry line is written, and
the rest of the state (mode, targets, command, actuators, PID state, positions) is unchanged. -/
theorem updateEncoders_estimates_velocity (s : Drive) (now : Nat)
    (h : 100 ≤ usub now s.lastSpeedTime) :
    mecanumUpdateEncoders s now =
      some ({ s with
          wheelSpeed := fun i => (s.speedCount i : ℚ) / ((usub now s.lastSpeedTime : ℚ) / 1000),
          speedCount := fun _ => 0,
          lastSpeedTime := now },
        [Serial3Out.enc s.ticks
          (fun i => (s.speedCount i : ℚ) / ((usub now s.lastSpeedTime : ℚ) / 1000))]) :=
  mecanumUpdateEncoders_eq s now h

/-- Witness for C19: two ticks on wheel 1 sampled 200 ms after start give 2 / 0.2 = 10 ticks
per second, in Manual mode. -/
theorem updateEncoders_estimates_velocity_witness :
    100 ≤ usub 200 (handleEncoder (handleEncoder Drive.static 1 true) 1 true).lastSpeedTime ∧
    (mecanumUpdateEncoders (handleEncoder (handleEncoder Drive.static 1 true) 1 true) 200).map
      (fun x => (x.1.wheelSpeed 1, x.1.speedCount 1, x.1.lastSpeedTime, x.1.currentMode)) =
      some (10, 0, 200, ControlMode.MODE_MANUAL) := by
  have h : 100 ≤ usub 200
      (handleEncoder (handleEncoder Drive.static 1 true) 1 true).lastSpeedTime := by decide
  refine ⟨h, ?_⟩
  rw [updateEncoders_estimates_velocity _ 200 h]
  have hu : usub 200 (handleEncoder (handleEncoder Drive.static 1 true) 1 true).lastSpeedTime =
      200 := by decide
  rw [hu]
  simp [handleEncoder, Drive.static]
  norm_num

/-- C13: for every line made of the token `VEL` followed by exactly three decimal numerals
(optional leading `'-'`, digits, optional fraction introduced by `'.'` or `','`), each
preceded by a single space, `handleLine` calls `mecanumSetCommand` with the three numeric
values in order, `','` read as the decimal point, and sets `lastCommandTime` to the current
time; in particular `"VEL 0.5 -0.3 0,2"` yields the command (0.5, -0.3, 0.2). -/
theorem handleLine_VEL_parses_numerals (r : Robot) (now : Nat) (n1 n2 n3 : Numeral)
    (h1 : n1.intDigits ≠ []) (h2 : n2.intDigits ≠ []) (h3 : n3.intDigits ≠ []) :
    handleLine r now
        (str "VEL" ++ 32 :: (n1.render ++ 32 :: (n2.render ++ 32 :: n3.render))) =
      { r with drive := mecanumSetCommand r.drive n1.value n2.value n3.value,
               lastCommandTime := now } ∧
    handleLine r now (str "VEL 0.5 -0.3 0,2") =
      { r with drive := mecanumSetCommand r.drive (1 / 2) (-3 / 10) (1 / 5),
               lastCommandTime := now } := by
  have _hn1 := render_ne_nil n1 h1
  have _hn2 := render_ne_nil n2 h2
  have key : ∀ m1 m2 m3 : Numeral, m3.intDigits ≠ [] →
      handleLine r now
        (str "VEL" ++ 32 :: (m1.render ++ 32 :: (m2.render ++ 32 :: m3.render))) =
      { r with drive := mecanumSetCommand r.drive m1.value m2.value m3.value,
               lastCommandTime := now } := by
    intro m1 m2 m3 hm3
    have h := handleLine_VEL_numerals_padded r now 0 0 m1 m2 m3 hm3
    simp only [List.replicate_zero, List.nil_append, List.append_nil] at h
    exact h
  refine ⟨key n1 n2 n3 h3, ?_⟩
  have hline : str "VEL 0.5 -0.3 0,2" =
      str "VEL" ++ 32 :: ((Numeral.mk false [0] (some (false, [5]))).render ++
        32 :: ((Numeral.mk true [0] (some (false, [3]))).render ++
          32 :: (Numeral.mk false [0] (some (true, [2]))).render)) := by decide
  have d0 : decimalNat [0] = 0 := by decide
  have d5 : decimalNat [5] = 5 := by decide
  have d3 : decimalNat [3] = 3 := by decide
  have d2 : decimalNat [2] = 2 := by decide
  have v1 : (Numeral.mk false [0] (some (false, [5]))).value = 1 / 2 := by
    simp only [Numeral.value, d0, d5]; norm_num
  have v2 : (Numeral.mk true [0] (some (false, [3]))).value = -3 / 10 := by
    simp only [Numeral.value, d0, d3]; norm_num
  have v3 : (Numeral.mk false [0] (some (true, [2]))).value = 1 / 5 := by
    simp only [Numeral.value, d0, d2]; norm_num
  rw [hline, key _ _ _ (by decide), v1, v2, v3]

/-- Witness for C13: the line `"VEL 1 -2,5 0.25"` received at time 700 sets the command
(1, -5/2, 1/4). -/
theorem handleLine_VEL_parses_numerals_witness :
    str "VEL 1 -2,5 0.25" =
      str "VEL" ++ 32 :: ((Numeral.mk false [1] none).render ++
        32 :: ((Numeral.mk true [2] (some (true, [5]))).render ++
          32 :: (Numeral.mk false [0] (some (false, [2, 5]))).render)) ∧
    handleLine (Robot.start 0) 700
        (str "VEL" ++ 32 :: ((Numeral.mk false [1] none).render ++
          32 :: ((Numeral.mk true [2] (some (true, [5]))).render ++
            32 :: (Numeral.mk false [0] (some (false, [2, 5]))).render))) =
      { Robot.start 0 with
        drive := mecanumSetCommand (Robot.start 0).drive (Numeral.mk false [1] none).value
          (Numeral.mk true [2] (some (true, [5]))).value
          (Numeral.mk false [0] (some (false, [2, 5]))).value,
        lastCommandTime := 700 } ∧
    (Numeral.mk true [2] (some (true, [5]))).value = -5 / 2 :=
  ⟨by decide,
   (handleLine_VEL_parses_numerals (Robot.start 0) 700 (Numeral.mk false [1] none)
      (Numeral.mk true [2] (some (true, [5]))) (Numeral.mk false [0] (some (false, [2, 5])))
      (by decide) (by decide) (by decide)).1,
   by
    have d2 : decimalNat [2] = 2 := by decide
    have d5 : decimalNat [5] = 5 := by decide
    simp only [Numeral.value, d2, d5]
    norm_num⟩

/-- C14, as the code behaves: the line `"VEL  0.5 -0.3"` (two spaces after `VEL`) has two
fields after the token, yet it is not ignored: the empty stretch between the two spaces is
read as 0 and the command (0, 0.5, -0.3) is applied, with the watchdog time refreshed. -/
theorem handleLine_VEL_double_space_applied :
    tokens (str "VEL  0.5 -0.3") = [str "VEL", str "0.5", str "-0.3"] ∧
    handleLine (Robot.start 0) 700 (str "VEL  0.5 -0.3") =
      { Robot.start 0 with
        drive := mecanumSetCommand (Robot.start 0).drive 0 (1 / 2) (-3 / 10),
        lastCommandTime := 700 } ∧
    (handleLine (Robot.start 0) 700 (str "VEL  0.5 -0.3")).lastCommandTime ≠
      (Robot.start 0).lastCommandTime ∧
    (handleLine (Robot.start 0) 700 (str "VEL  0.5 -0.3")).drive.vy_cmd ≠
      (Robot.start 0).drive.vy_cmd := by
  have hclean : cleanLine (str "VEL  0.5 -0.3") =
      str "VEL" ++ ([] ++ 32 :: ([] ++ 32 :: (str "0.5" ++ 32 :: str "-0.3"))) := by decide
  have d0 : decimalNat [0] = 0 := by decide
  have d5 : decimalNat [5] = 5 := by decide
  have d3 : decimalNat [3] = 3 := by decide
  have dn : decimalNat [] = 0 := by decide
  have v1 : safeParseFloat (32 :: []) = 0 := by
    rw [safeParseFloat_eval _ false [] [] false (by decide)]
    simp only [dn]; norm_num
  have v2 : safeParseFloat (32 :: str "0.5") = 1 / 2 := by
    rw [safeParseFloat_eval _ false [0] [5] true (by decide)]
    simp only [d0, d5]; norm_num
  have v3 : safeParseFloat (32 :: str "-0.3") = -3 / 10 := by
    rw [safeParseFloat_eval _ true [0] [3] true (by decide)]
    simp only [d0, d3]; norm_num
  have h := handleLine_VEL_fields (Robot.start 0) 700 (str "VEL  0.5 -0.3") [] [] (str "0.5")
    (str "-0.3") hclean (by decide) (by decide) (by decide)
  rw [v1, v2, v3] at h
  refine ⟨by decide, h, ?_, ?_⟩
  · rw [h]; decide
  · rw [h]
    have hv : (mecanumSetCommand (Robot.start 0).drive 0 (1 / 2) (-3 / 10)).vy_cmd = 1 / 2 :=
      (setCommand_stores_vy (Robot.start 0).drive 0 (1 / 2) (-3 / 10))
    show (mecanumSetCommand (Robot.start 0).drive 0 (1 / 2) (-3 / 10)).vy_cmd ≠ 0
    rw [hv]; norm_num

/-- C14 amended: every line whose cleaned text starts with `VEL` and holds fewer than three
space characters (for example `"VEL 0.5 -0.3"`, `"VEL 1"` or `"VEL"`) is ignored by
`handleLine`: the whole state, with the stored command, wheel targets, actuators, mode and
`lastCommandTime`, is unchanged. -/
theorem handleLine_VEL_incomplete_ignored (r : Robot) (now : Nat) (line : List Nat)
    (hvel : startsWith (cleanLine line) (str "VEL") = true)
    (hcount : (cleanLine line).count 32 < 3) :
    handleLine r now line = r := by
  have hrej : indexOfChar (cleanLine line) 32 0 < 0 ∨
      indexOfChar (cleanLine line) 32 (indexOfChar (cleanLine line) 32 0 + 1).toNat < 0 ∨
      indexOfChar (cleanLine line) 32
        (indexOfChar (cleanLine line) 32
          (indexOfChar (cleanLine line) 32 0 + 1).toNat + 1).toNat < 0 := by
    by_contra hcon
    simp only [not_or] at hcon
    have := vel_three_spaces (cleanLine line) hcon.1 hcon.2.1 hcon.2.2
    omega
  simp only [handleLine, hvel, if_true, if_pos hrej]

/-- Witness for C14: the lines `"VEL 0.5 -0.3"`, `"VEL 1"` and `"VEL"` leave the state as it
was. -/
theorem handleLine_VEL_incomplete_ignored_witness :
    handleLine (Robot.start 0) 700 (str "VEL 0.5 -0.3") = Robot.start 0 ∧
    handleLine (Robot.start 0) 700 (str "VEL 1") = Robot.start 0 ∧
    handleLine (Robot.start 0) 700 (str "VEL") = Robot.start 0 :=
  ⟨handleLine_VEL_incomplete_ignored (Robot.start 0) 700 (str "VEL 0.5 -0.3")
      (by decide) (by decide),
   handleLine_VEL_incomplete_ignored (Robot.start 0) 700 (str "VEL 1") (by decide) (by decide),
   handleLine_VEL_incomplete_ignored (Robot.start 0) 700 (str "VEL") (by decide) (by decide)⟩

/-- C15, as the code behaves: the line `"MODE MAIN"` has first token `MODE` and a suffix that
is neither `MANUAL` nor `AI`, yet from Manual mode it switches the mode to AI and echoes
`MODE AI`, because `AI` occurs inside `MAIN`. -/
theorem handleLine_MODE_MAIN_sets_AI :
    tokens (str "MODE MAIN") = [str "MODE", str "MAIN"] ∧
    str "MAIN" ≠ str "MANUAL" ∧ str "MAIN" ≠ str "AI" ∧
    (Robot.start 0).drive.currentMode = ControlMode.MODE_MANUAL ∧
    (handleLine (Robot.start 0) 700 (str "MODE MAIN")).drive.currentMode =
      ControlMode.MODE_AI ∧
    (handleLine (Robot.start 0) 700 (str "MODE MAIN")).serial3 =
      [Serial3Out.line "MODE AI"] :=
  ⟨by decide, by decide, by decide, rfl, by decide, rfl⟩

/-- C15 amended: for every line whose cleaned text starts with `MODE`: if `MANUAL` occurs in
it the mode becomes Manual and `MODE MANUAL` is echoed; otherwise, if `AI` occurs in it the
mode becomes AI and `MODE AI` is echoed; otherwise (neither occurs, as with no suffix) the
drive state is unchanged and nothing is echoed; in all three cases `lastCommandTime` is
refreshed. -/
theorem handleLine_MODE_by_occurrence (r : Robot) (now : Nat) (line : List Nat)
    (hmode : startsWith (cleanLine line) (str "MODE") = true) :
    (str "MANUAL" <:+: cleanLine line →
      handleLine r now line =
        { r with lastCommandTime := now,
                 drive := mecanumSetMode r.drive ControlMode.MODE_MANUAL,
                 serial3 := r.serial3 ++ [Serial3Out.line "MODE MANUAL"] }) ∧
    (¬ str "MANUAL" <:+: cleanLine line → str "AI" <:+: cleanLine line →
      handleLine r now line =
        { r with lastCommandTime := now,
                 drive := mecanumSetMode r.drive ControlMode.MODE_AI,
                 serial3 := r.serial3 ++ [Serial3Out.line "MODE AI"] }) ∧
    (¬ str "MANUAL" <:+: cleanLine line → ¬ str "AI" <:+: cleanLine line →
      handleLine r now line = { r with lastCommandTime := now }) := by
  obtain ⟨hvel, hnm, hna⟩ := startsWith_MODE_excludes (cleanLine line) hmode
  have hM := indexOfStr_pos_iff (cleanLine line) (str "MANUAL") (by decide) hnm
  have hA := indexOfStr_pos_iff (cleanLine line) (str "AI") (by decide) hna
  have hbase : handleLine r now line =
      if indexOfStr (cleanLine line) (str "MANUAL") > 0 then
        { r with lastCommandTime := now,
                 drive := mecanumSetMode r.drive ControlMode.MODE_MANUAL,
                 serial3 := r.serial3 ++ [Serial3Out.line "MODE MANUAL"] }
      else if indexOfStr (cleanLine line) (str "AI") > 0 then
        { r with lastCommandTime := now,
                 drive := mecanumSetMode r.drive ControlMode.MODE_AI,
                 serial3 := r.serial3 ++ [Serial3Out.line "MODE AI"] }
      else { r with lastCommandTime := now } := by
    simp only [handleLine, hvel, hmode, if_true, Bool.false_eq_true, if_false]
  refine ⟨?_, ?_, ?_⟩
  · intro h
    rw [hbase, if_pos (hM.mpr h)]
  · intro h1 h2
    rw [hbase, if_neg (fun h => h1 (hM.mp h)), if_pos (hA.mpr h2)]
  · intro h1 h2
    rw [hbase, if_neg (fun h => h1 (hM.mp h)), if_neg (fun h => h2 (hA.mp h))]

/-- Witness for C15: `"MODE MANUAL"`, `"MODE AI"` and `"MODE AUTO"` received at time 700. -/
theorem handleLine_MODE_by_occurrence_witness :
    handleLine (Robot.start 0) 700 (str "MODE MANUAL") =
      { Robot.start 0 with
        lastCommandTime := 700,
        drive := mecanumSetMode (Robot.start 0).drive ControlMode.MODE_MANUAL,
        serial3 := (Robot.start 0).serial3 ++ [Serial3Out.line "MODE MANUAL"] } ∧
    handleLine (Robot.start 0) 700 (str "MODE AI") =
      { Robot.start 0 with
        lastCommandTime := 700,
        drive := mecanumSetMode (Robot.start 0).drive ControlMode.MODE_AI,
        serial3 := (Robot.start 0).serial3 ++ [Serial3Out.line "MODE AI"] } ∧
    handleLine (Robot.start 0) 700 (str "MODE AUTO") =
      { Robot.start 0 with lastCommandTime := 700 } :=
  ⟨(handleLine_MODE_by_occurrence (Robot.start 0) 700 (str "MODE MANUAL") (by decide)).1
      (by decide),
   (handleLine_MODE_by_occurrence (Robot.start 0) 700 (str "MODE AI") (by decide)).2.1
      (by decide) (by decide),
   (handleLine_MODE_by_occurrence (Robot.start 0) 700 (str "MODE AUTO") (by decide)).2.2
      (by decide) (by decide)⟩

/-- C16, as the code behaves: the line `"PINGX"` has the single token `PINGX`, which is none
of `VEL`, `MODE`, `PING`, yet `handleLine` answers `PONG` on the command link and refreshes
`lastCommandTime`: the command words are matched as beginnings of the line. -/
theorem handleLine_PINGX_answered :
    tokens (str "PINGX") = [str "PINGX"] ∧
    str "PINGX" ≠ str "VEL" ∧ str "PINGX" ≠ str "MODE" ∧ str "PINGX" ≠ str "PING" ∧
    handleLine (Robot.start 0) 700 (str "PINGX") =
      { Robot.start 0 with
        serial3 := (Robot.start 0).serial3 ++ [Serial3Out.line "PONG"],
        lastCommandTime := 700 } ∧
    (handleLine (Robot.start 0) 700 (str "PINGX")).lastCommandTime ≠
      (Robot.start 0).lastCommandTime :=
  ⟨by decide, by decide, by decide, by decide, rfl, by decide⟩

/-- C16 amended: the command words are matched, case-sensitively, as beginnings of the
cleaned line: for every line whose cleaned text starts with none of `VEL`, `MODE`, `PING`,
`handleLine` changes nothing (no drive state change, no reply on the command link, no
refresh of `lastCommandTime`); a cleaned text that starts with `PING` is answered `PONG`. -/
theorem handleLine_ignores_unmatched_lines (r : Robot) (now : Nat) (line : List Nat)
    (hv : startsWith (cleanLine line) (str "VEL") = false)
    (hm : startsWith (cleanLine line) (str "MODE") = false) :
    (startsWith (cleanLine line) (str "PING") = false → handleLine r now line = r) ∧
    (startsWith (cleanLine line) (str "PING") = true →
      handleLine r now line =
        { r with serial3 := r.serial3 ++ [Serial3Out.line "PONG"], lastCommandTime := now }) := by
  constructor
  · intro hp
    simp only [handleLine, hv, hm, hp, Bool.false_eq_true, if_false]
  · intro hp
    simp only [handleLine, hv, hm, hp, Bool.false_eq_true, if_false, if_true]

/-- Witness for C16: the lower-case line `"ping"` and the line `"STOP 1"` are ignored. -/
theorem handleLine_ignores_unmatched_lines_witness :
    handleLine (Robot.start 0) 700 (str "ping") = Robot.start 0 ∧
    handleLine (Robot.start 0) 700 (str "STOP 1") = Robot.start 0 :=
  ⟨(handleLine_ignores_unmatched_lines (Robot.start 0) 700 (str "ping")
      (by decide) (by decide)).1 (by decide),
   (handleLine_ignores_unmatched_lines (Robot.start 0) 700 (str "STOP 1")
      (by decide) (by decide)).1 (by decide)⟩

/-- C17, as the code behaves: `"VEL 1  2 3"` (two spaces between the first two fields) has
the same tokens as `"VEL 1 2 3"`, yet it is parsed as the command (1, 0, 23), not (1, 2, 3):
the fields are cut at the first three single spaces. -/
theorem handleLine_VEL_extra_space_changes_command :
    tokens (str "VEL 1  2 3") = tokens (str "VEL 1 2 3") ∧
    tokens (str "VEL 1  2 3") = [str "VEL", str "1", str "2", str "3"] ∧
    handleLine (Robot.start 0) 700 (str "VEL 1  2 3") =
      { Robot.start 0 with
        drive := mecanumSetCommand (Robot.start 0).drive 1 0 23,
        lastCommandTime := 700 } ∧
    handleLine (Robot.start 0) 700 (str "VEL 1 2 3") =
      { Robot.start 0 with
        drive := mecanumSetCommand (Robot.start 0).drive 1 2 3,
        lastCommandTime := 700 } ∧
    (handleLine (Robot.start 0) 700 (str "VEL 1  2 3")).drive.vy_cmd ≠
      (handleLine (Robot.start 0) 700 (str "VEL 1 2 3")).drive.vy_cmd := by
  have hclean : cleanLine (str "VEL 1  2 3") =
      str "VEL" ++ ([] ++ 32 :: (str "1" ++ 32 :: ([] ++ 32 :: str "2 3"))) := by decide
  have hclean2 : cleanLine (str "VEL 1 2 3") =
      str "VEL" ++ ([] ++ 32 :: (str "1" ++ 32 :: (str "2" ++ 32 :: str "3"))) := by decide
  have d1 : decimalNat [1] = 1 := by decide
  have d2 : decimalNat [2] = 2 := by decide
  have d3 : decimalNat [3] = 3 := by decide
  have d23 : decimalNat [2, 3] = 23 := by decide
  have dn : decimalNat [] = 0 := by decide
  have v1 : safeParseFloat (32 :: str "1") = 1 := by
    rw [safeParseFloat_eval _ false [1] [] false (by decide)]
    simp only [d1]; norm_num
  have v0 : safeParseFloat (32 :: []) = 0 := by
    rw [safeParseFloat_eval _ false [] [] false (by decide)]
    simp only [dn]; norm_num
  have v23 : safeParseFloat (32 :: str "2 3") = 23 := by
    rw [safeParseFloat_eval _ false [2, 3] [] false (by decide)]
    simp only [d23]; norm_num
  have v2 : safeParseFloat (32 :: str "2") = 2 := by
    rw [safeParseFloat_eval _ false [2] [] false (by decide)]
    simp only [d2]; norm_num
  have v3 : safeParseFloat (32 :: str "3") = 3 := by
    rw [safeParseFloat_eval _ false [3] [] false (by decide)]
    simp only [d3]; norm_num
  have h := handleLine_VEL_fields (Robot.start 0) 700 (str "VEL 1  2 3") [] (str "1") []
    (str "2 3") hclean (by decide) (by decide) (by decide)
  rw [v1, v0, v23] at h
  have h2 := handleLine_VEL_fields (Robot.start 0) 700 (str "VEL 1 2 3") [] (str "1") (str "2")
    (str "3") hclean2 (by decide) (by decide) (by decide)
  rw [v1, v2, v3] at h2
  refine ⟨by decide, by decide, h, h2, ?_⟩
  rw [h, h2]
  show (mecanumSetCommand (Robot.start 0).drive 1 0 23).vy_cmd ≠
    (mecanumSetCommand (Robot.start 0).drive 1 2 3).vy_cmd
  rw [setCommand_stores_vy, setCommand_stores_vy]
  norm_num

/-- C17 amended: the fields of a `VEL` command are delimited by single spaces: for every line
made of the token `VEL` and exactly three decimal numerals, each preceded by exactly one
space, with any number of further spaces before `VEL` and after the last numeral, the triple
passed to `mecanumSetCommand` is the three numerals' values in order; spaces added around
the line do not change the parsed command. -/
theorem handleLine_VEL_single_space_fields (r : Robot) (now : Nat) (a b : Nat)
    (n1 n2 n3 : Numeral)
    (h1 : n1.intDigits ≠ []) (h2 : n2.intDigits ≠ []) (h3 : n3.intDigits ≠ []) :
    handleLine r now (List.replicate a 32 ++
        ((str "VEL" ++ 32 :: (n1.render ++ 32 :: (n2.render ++ 32 :: n3.render))) ++
          List.replicate b 32)) =
      { r with drive := mecanumSetCommand r.drive n1.value n2.value n3.value,
               lastCommandTime := now } ∧
    handleLine r now (List.replicate a 32 ++
        ((str "VEL" ++ 32 :: (n1.render ++ 32 :: (n2.render ++ 32 :: n3.render))) ++
          List.replicate b 32)) =
      handleLine r now
        (str "VEL" ++ 32 :: (n1.render ++ 32 :: (n2.render ++ 32 :: n3.render))) := by
  have _hn1 := render_ne_nil n1 h1
  have _hn2 := render_ne_nil n2 h2
  have hpad := handleLine_VEL_numerals_padded r now a b n1 n2 n3 h3
  have h0 := handleLine_VEL_numerals_padded r now 0 0 n1 n2 n3 h3
  simp only [List.replicate_zero, List.nil_append, List.append_nil] at h0
  exact ⟨hpad, by rw [hpad, h0]⟩

/-- Witness for C17: `"  VEL 1 2 3 "` is parsed like `"VEL 1 2 3"`. -/
theorem handleLine_VEL_single_space_fields_witness :
    str "  VEL 1 2 3 " = List.replicate 2 32 ++
      ((str "VEL" ++ 32 :: ((Numeral.mk false [1] none).render ++
        32 :: ((Numeral.mk false [2] none).render ++
          32 :: (Numeral.mk false [3] none).render))) ++ List.replicate 1 32) ∧
    handleLine (Robot.start 0) 700 (List.replicate 2 32 ++
      ((str "VEL" ++ 32 :: ((Numeral.mk false [1] none).render ++
        32 :: ((Numeral.mk false [2] none).render ++
          32 :: (Numeral.mk false [3] none).render))) ++ List.replicate 1 32)) =
      handleLine (Robot.start 0) 700
        (str "VEL" ++ 32 :: ((Numeral.mk false [1] none).render ++
          32 :: ((Numeral.mk false [2] none).render ++
            32 :: (Numeral.mk false [3] none).render))) :=
  ⟨by decide,
   (handleLine_VEL_single_space_fields (Robot.start 0) 700 2 1 (Numeral.mk false [1] none)
      (Numeral.mk false [2] none) (Numeral.mk false [3] none)
      (by decide) (by decide) (by decide)).2⟩

/-- C20, as the code behaves: the line `"MODEXAI"` has the single token `MODEXAI`, which is
not `MODE`, yet `handleLine` switches the controller from Manual to AI mode: a line is
handled as a `MODE` line as soon as its cleaned text starts with `MODE`. -/
theorem handleLine_MODEXAI_sets_AI :
    tokens (str "MODEXAI") = [str "MODEXAI"] ∧
    str "MODEXAI" ≠ str "MODE" ∧
    (Robot.start 0).drive.currentMode = ControlMode.MODE_MANUAL ∧
    (handleLine (Robot.start 0) 700 (str "MODEXAI")).drive.currentMode =
      ControlMode.MODE_AI ∧
    (handleLine (Robot.start 0) 700 (str "MODEXAI")).drive.currentMode ≠
      (Robot.start 0).drive.currentMode :=
  ⟨by decide, by decide, by decide, by decide, by decide⟩

/-- C20 amended: the control mode changes only through `mecanumSetMode`: `mecanumSetCommand`,
`mecanumUpdateEncoders`, `mecanumUpdatePID` (both always return), `mecanumEmergencyStop`,
`protocolWatchdog`, an encoder capture event, and `handleLine` on every line whose cleaned
text does not start with `MODE` leave the mode unchanged; and on any line at all
`handleLine` either leaves the mode unchanged or the cleaned text starts with `MODE` and not
with `VEL`, and the drive state is the one `mecanumSetMode` returns. -/
theorem mode_changes_only_by_setMode (s : Drive) (r : Robot) (now : Nat) :
    (∀ vx vy w : ℚ, (mecanumSetCommand s vx vy w).currentMode = s.currentMode) ∧
    (∃ (s2 : Drive) (out : List Serial3Out), mecanumUpdateEncoders s now = some (s2, out) ∧
      s2.currentMode = s.currentMode) ∧
    (∃ s2 : Drive, mecanumUpdatePID s now = some s2 ∧ s2.currentMode = s.currentMode) ∧
    (mecanumEmergencyStop s).currentMode = s.currentMode ∧
    (protocolWatchdog r now).drive.currentMode = r.drive.currentMode ∧
    (∀ (i : Fin 4) (b : Bool), (handleEncoder s i b).currentMode = s.currentMode) ∧
    (∀ line : List Nat, startsWith (cleanLine line) (str "MODE") = false →
      (handleLine r now line).drive.currentMode = r.drive.currentMode) ∧
    (∀ line : List Nat,
      (handleLine r now line).drive.currentMode = r.drive.currentMode ∨
      (startsWith (cleanLine line) (str "MODE") = true ∧
        startsWith (cleanLine line) (str "VEL") = false ∧
        ∃ mode : ControlMode, (handleLine r now line).drive = mecanumSetMode r.drive mode)) := by
  have hvel : ∀ line : List Nat, startsWith (cleanLine line) (str "VEL") = true →
      (handleLine r now line).drive.currentMode = r.drive.currentMode := by
    intro line hv
    simp only [handleLine, hv, if_true]
    split_ifs
    · rfl
    · exact setCommand_keeps_mode _ _ _ _
  have hline : ∀ line : List Nat, startsWith (cleanLine line) (str "MODE") = false →
      (handleLine r now line).drive.currentMode = r.drive.currentMode := by
    intro line hm
    by_cases hv : startsWith (cleanLine line) (str "VEL") = true
    · exact hvel line hv
    · have hv2 : startsWith (cleanLine line) (str "VEL") = false := by
        simpa using hv
      by_cases hp : startsWith (cleanLine line) (str "PING") = true
      · simp only [handleLine, hv2, hm, hp, Bool.false_eq_true, if_false, if_true]
      · have hp2 : startsWith (cleanLine line) (str "PING") = false := by
          simpa using hp
        simp only [handleLine, hv2, hm, hp2, Bool.false_eq_true, if_false]
  refine ⟨setCommand_keeps_mode s, ?_, mecanumUpdatePID_returns s now, rfl, ?_, ?_, hline, ?_⟩
  · by_cases h : usub now s.lastSpeedTime < 100
    · exact ⟨s, [], by simp only [mecanumUpdateEncoders, if_pos h], rfl⟩
    · exact ⟨_, _, mecanumUpdateEncoders_eq s now (not_lt.mp h), rfl⟩
  · unfold protocolWatchdog
    split_ifs <;> rfl
  · intro i b
    cases b <;> rfl
  · intro line
    by_cases hv : startsWith (cleanLine line) (str "VEL") = true
    · exact Or.inl (hvel line hv)
    · have hv2 : startsWith (cleanLine line) (str "VEL") = false := by
        simpa using hv
      by_cases hm : startsWith (cleanLine line) (str "MODE") = true
      · by_cases h1 : indexOfStr (cleanLine line) (str "MANUAL") > 0
        · refine Or.inr ⟨hm, hv2, ControlMode.MODE_MANUAL, ?_⟩
          simp only [handleLine, hv2, hm, Bool.false_eq_true, if_false, if_true, if_pos h1]
        · by_cases h2 : indexOfStr (cleanLine line) (str "AI") > 0
          · refine Or.inr ⟨hm, hv2, ControlMode.MODE_AI, ?_⟩
            simp only [handleLine, hv2, hm, Bool.false_eq_true, if_false, if_true, if_neg h1,
              if_pos h2]
          · left
            simp only [handleLine, hv2, hm, Bool.false_eq_true, if_false, if_true, if_neg h1,
              if_neg h2]
      · have hm2 : startsWith (cleanLine line) (str "MODE") = false := by
          simpa using hm
        exact Or.inl (hline line hm2)

/-- Witness for C20: in AI mode the line `"VEL 1 0 0"` leaves the mode at AI. -/
theorem mode_changes_only_by_setMode_witness :
    startsWith (cleanLine (str "VEL 1 0 0")) (str "MODE") = false ∧
    (handleLine (handleLine (Robot.start 0) 100 (str "MODE AI")) 700
      (str "VEL 1 0 0")).drive.currentMode =
      (handleLine (Robot.start 0) 100 (str "MODE AI")).drive.currentMode ∧
    (handleLine (Robot.start 0) 100 (str "MODE AI")).drive.currentMode = ControlMode.MODE_AI :=
  ⟨by decide,
   (mode_changes_only_by_setMode (Robot.start 0).drive
      (handleLine (Robot.start 0) 100 (str "MODE AI")) 700).2.2.2.2.2.2.1 (str "VEL 1 0 0")
      (by decide),
   by decide⟩

/-- C21: one control cycle runs command intake, then velocity estimation on the state the
intake left, then PID servicing on the state the estimation left, then the watchdog check
on the state the PID service left; every cycle returns; and whenever at the watchdog check
the unsigned difference `now - lastCommandTime` exceeds `WATCHDOG_TIMEOUT`, the state at the
end of the cycle has every motor at speed 0 and released, all wheel targets 0 and the
command (0, 0, 0), whatever the earlier steps of the cycle did. -/
theorem loop_watchdog_overrides_cycle (r : Robot) (input : List (Nat × Nat))
    (tEnc tPid tWd : Nat) :
    ∃ (d1 : Drive) (out : List Serial3Out) (d2 : Drive),
      mecanumUpdateEncoders (protocolUpdate r input).drive tEnc = some (d1, out) ∧
      mecanumUpdatePID d1 tPid = some d2 ∧
      loop r input tEnc tPid tWd =
        some (protocolWatchdog
          { protocolUpdate r input with
            drive := d2, serial3 := (protocolUpdate r input).serial3 ++ out } tWd) ∧
      (usub tWd (protocolUpdate r input).lastCommandTime > WATCHDOG_TIMEOUT →
        ∃ r2 : Robot, loop r input tEnc tPid tWd = some r2 ∧
          (∀ i, r2.drive.motors i = { speed := 0, dir := MotorDir.RELEASE }) ∧
          (∀ i, r2.drive.wheelTarget i = 0) ∧
          r2.drive.vx_cmd = 0 ∧ r2.drive.vy_cmd = 0 ∧ r2.drive.w_cmd = 0) := by
  obtain ⟨d1, out, h1, -⟩ := mecanumUpdateEncoders_frame (protocolUpdate r input).drive tEnc
  obtain ⟨d2, h2, -⟩ := mecanumUpdatePID_frame d1 tPid
  have hloop : loop r input tEnc tPid tWd =
      some (protocolWatchdog
        { protocolUpdate r input with
          drive := d2, serial3 := (protocolUpdate r input).serial3 ++ out } tWd) := by
    simp only [loop, h1, h2]
  refine ⟨d1, out, d2, h1, h2, hloop, ?_⟩
  intro hover
  refine ⟨_, hloop, ?_⟩
  have hw : protocolWatchdog
      { protocolUpdate r input with
        drive := d2, serial3 := (protocolUpdate r input).serial3 ++ out } tWd =
      { protocolUpdate r input with
        drive := mecanumEmergencyStop d2,
        serial3 := (protocolUpdate r input).serial3 ++ out } := by
    simp only [protocolWatchdog, if_pos hover]
  rw [hw]
  refine ⟨fun i => ?_, fun _ => rfl, rfl, rfl, rfl⟩
  simp [mecanumEmergencyStop, AF_DCMotor.setSpeed, AF_DCMotor.run]

/-- Witness for C21: in AI mode with the command (1, 0, 0) given at time 100, a cycle without
input whose watchdog check happens at time 700 ends with motor 0 stopped and released. -/
theorem loop_watchdog_overrides_cycle_witness :
    usub 700 (protocolUpdate
      (handleLine (handleLine (Robot.start 0) 100 (str "MODE AI")) 100 (str "VEL 1 0 0"))
      []).lastCommandTime > WATCHDOG_TIMEOUT ∧
    ∃ r2 : Robot,
      loop (handleLine (handleLine (Robot.start 0) 100 (str "MODE AI")) 100 (str "VEL 1 0 0"))
        [] 700 700 700 = some r2 ∧
      r2.drive.motors 0 = { speed := 0, dir := MotorDir.RELEASE } ∧
      r2.drive.wheelTarget 0 = 0 := by
  have hover : usub 700 (protocolUpdate
      (handleLine (handleLine (Robot.start 0) 100 (str "MODE AI")) 100 (str "VEL 1 0 0"))
      []).lastCommandTime > WATCHDOG_TIMEOUT := by decide
  obtain ⟨-, -, -, -, -, -, h⟩ := loop_watchdog_overrides_cycle
    (handleLine (handleLine (Robot.start 0) 100 (str "MODE AI")) 100 (str "VEL 1 0 0"))
    [] 700 700 700
  obtain ⟨r2, hr, hm, ht, -⟩ := h hover
  exact ⟨hover, r2, hr, hm 0, ht 0⟩

/-- C22: inside the drive controller the time step is never zero at a division. An eligible
`mecanumUpdatePID` call passes `dt = elapsed / 1000 ≥ PID_PERIOD / 1000 = 0.02` to every
`PID::update`, and all four return; an eligible `mecanumUpdateEncoders` call divides by
`dt = elapsed / 1000 ≥ 0.1`, and all four divisions are defined. A call in Manual
mode, or with an elapsed time (unsigned difference) below the period, zero included, returns
before the division with the state, hence actuators and wheel velocities, unchanged. -/
theorem drive_time_step_never_zero (s : Drive) (now : Nat) :
    (PID_PERIOD : ℚ) / 1000 = 1 / 50 ∧
    (s.currentMode = ControlMode.MODE_AI → PID_PERIOD ≤ usub now s.lastPIDTime →
      (PID_PERIOD : ℚ) / 1000 ≤ (usub now s.lastPIDTime : ℚ) / 1000 ∧
      ∃ res : Fin 4 → PID × ℚ,
        (∀ i, (s.pid i).update (s.wheelTarget i) (s.wheelSpeed i)
          ((usub now s.lastPIDTime : ℚ) / 1000) = some (res i)) ∧
        mecanumUpdatePID s now =
          some { s with lastPIDTime := now,
                        pid := fun i => (res i).1,
                        motors := fun i => applyMotor (s.motors i) (res i).2 i }) ∧
    (100 ≤ usub now s.lastSpeedTime →
      (1 / 10 : ℚ) ≤ (usub now s.lastSpeedTime : ℚ) / 1000 ∧
      (∀ i, fdiv (s.speedCount i : ℚ) ((usub now s.lastSpeedTime : ℚ) / 1000) =
        some ((s.speedCount i : ℚ) / ((usub now s.lastSpeedTime : ℚ) / 1000))) ∧
      ∃ (s2 : Drive) (out : List Serial3Out), mecanumUpdateEncoders s now = some (s2, out) ∧
        ∀ i, s2.wheelSpeed i =
          (s.speedCount i : ℚ) / ((usub now s.lastSpeedTime : ℚ) / 1000)) ∧
    (s.currentMode ≠ ControlMode.MODE_AI → mecanumUpdatePID s now = some s) ∧
    (usub now s.lastPIDTime < PID_PERIOD → mecanumUpdatePID s now = some s) ∧
    (usub now s.lastSpeedTime < 100 → mecanumUpdateEncoders s now = some (s, [])) ∧
    mecanumUpdatePID s s.lastPIDTime = some s ∧
    mecanumUpdateEncoders s s.lastSpeedTime = some (s, []) := by
  have hpid_gate : ∀ t : Nat, usub t s.lastPIDTime < PID_PERIOD →
      mecanumUpdatePID s t = some s := by
    intro t hlt
    by_cases hm : s.currentMode ≠ ControlMode.MODE_AI
    · simp only [mecanumUpdatePID, if_pos hm]
    · simp only [mecanumUpdatePID, if_neg hm, if_pos hlt]
  have henc_gate : ∀ t : Nat, usub t s.lastSpeedTime < 100 →
      mecanumUpdateEncoders s t = some (s, []) := by
    intro t hlt
    simp only [mecanumUpdateEncoders, if_pos hlt]
  refine ⟨?_, ?_, ?_, ?_, hpid_gate now, henc_gate now, ?_, ?_⟩
  · rw [PID_PERIOD_eq]; norm_num
  · intro hm hp
    exact ⟨elapsed_seconds_ge _ _ hp, mecanumUpdatePID_eq s now hm hp⟩
  · intro hge
    have hdt := elapsed_seconds_ne_zero (usub now s.lastSpeedTime) 100 (by norm_num) hge
    refine ⟨?_, ?_, _, _, mecanumUpdateEncoders_eq s now hge, fun _ => rfl⟩
    · have h := elapsed_seconds_ge (usub now s.lastSpeedTime) 100 hge
      have e : ((100 : Nat) : ℚ) / 1000 = 1 / 10 := by norm_num
      rw [e] at h
      exact h
    · intro i
      simp only [fdiv, if_neg hdt]
  · intro hm
    simp only [mecanumUpdatePID, if_pos hm]
  · apply hpid_gate
    rw [usub_self, PID_PERIOD_eq]; norm_num
  · apply henc_gate
    rw [usub_self]; norm_num

/-- Witness for C22: 30 ms after the last service in AI mode the PID service runs with
`dt = 30 / 1000 ≥ 0.02`, and 250 ms after the last estimation the estimation divides by
`dt = 250 / 1000 ≥ 0.1`. -/
theorem drive_time_step_never_zero_witness :
    ((mecanumSetMode Drive.static ControlMode.MODE_AI).currentMode = ControlMode.MODE_AI ∧
      PID_PERIOD ≤ usub 30 (mecanumSetMode Drive.static ControlMode.MODE_AI).lastPIDTime ∧
      (PID_PERIOD : ℚ) / 1000 ≤
        (usub 30 (mecanumSetMode Drive.static ControlMode.MODE_AI).lastPIDTime : ℚ) / 1000) ∧
    (100 ≤ usub 250 Drive.static.lastSpeedTime ∧
      (1 / 10 : ℚ) ≤ (usub 250 Drive.static.lastSpeedTime : ℚ) / 1000) :=
  have h1 : (mecanumSetMode Drive.static ControlMode.MODE_AI).currentMode =
      ControlMode.MODE_AI := rfl
  have h2 : PID_PERIOD ≤ usub 30 (mecanumSetMode Drive.static ControlMode.MODE_AI).lastPIDTime := by
    rw [PID_PERIOD_eq]; decide
  have h3 : 100 ≤ usub 250 Drive.static.lastSpeedTime := by decide
  ⟨⟨h1, h2, ((drive_time_step_never_zero (mecanumSetMode Drive.static ControlMode.MODE_AI)
      30).2.1 h1 h2).1⟩,
   ⟨h3, ((drive_time_step_never_zero Drive.static 250).2.2.1 h3).1⟩⟩

/-- C23: with `PWM_MAX = 200`, every eligible `mecanumUpdatePID` call (Closed-Loop mode,
elapsed time at least `PID_PERIOD`) computes for each wheel `i` the command
`u_i = pid[i].update(wheelTarget[i], wheelSpeed[i], elapsed / 1000)` and leaves motor `i` as
`applyMotor` sets it for `u_i`; `applyMotor` on wheel `i` acts with the sign `motorSign[i]`,
which is 1 or -1; and for every command `c` and sign `s` in {1, -1} the speed set is
`min(floor(|c| * PWM_MAX), PWM_MAX)`, within `[0, PWM_MAX]`, the direction is BACKWARD when
`s * c > 0`, FORWARD when `s * c < 0` and RELEASE otherwise, that is when `c = 0`, and negating the command
keeps the speed and exchanges BACKWARD and FORWARD. -/
theorem updatePID_applies_signed_command (s : Drive) (now : Nat) (m : AF_DCMotor) (c : ℚ)
    (sgn : Int) :
    PWM_MAX = 200 ∧
    (s.currentMode = ControlMode.MODE_AI → PID_PERIOD ≤ usub now s.lastPIDTime →
      ∃ (u : Fin 4 → ℚ) (s2 : Drive),
        (∀ i, Option.map Prod.snd ((s.pid i).update (s.wheelTarget i) (s.wheelSpeed i)
          ((usub now s.lastPIDTime : ℚ) / 1000)) = some (u i)) ∧
        mecanumUpdatePID s now = some s2 ∧
        ∀ i, s2.motors i = applyMotor (s.motors i) (u i) i) ∧
    (∀ i, applyMotor m c i = applyMotorSigned (motorSign i) m c ∧
      (motorSign i = 1 ∨ motorSign i = -1)) ∧
    (sgn = 1 ∨ sgn = -1 →
      ((applyMotorSigned sgn m c).speed : Int) = min ⌊|c| * (PWM_MAX : ℚ)⌋ PWM_MAX ∧
      (0 : Int) ≤ ((applyMotorSigned sgn m c).speed : Int) ∧
      ((applyMotorSigned sgn m c).speed : Int) ≤ PWM_MAX ∧
      (applyMotorSigned sgn m c).dir =
        (if (sgn : ℚ) * c > 0 then MotorDir.BACKWARD
         else if (sgn : ℚ) * c < 0 then MotorDir.FORWARD
         else MotorDir.RELEASE) ∧
      ((applyMotorSigned sgn m c).dir = MotorDir.RELEASE ↔ c = 0) ∧
      (applyMotorSigned sgn m (-c)).speed = (applyMotorSigned sgn m c).speed ∧
      ((applyMotorSigned sgn m (-c)).dir = MotorDir.FORWARD ↔
        (applyMotorSigned sgn m c).dir = MotorDir.BACKWARD) ∧
      ((applyMotorSigned sgn m (-c)).dir = MotorDir.BACKWARD ↔
        (applyMotorSigned sgn m c).dir = MotorDir.FORWARD)) := by
  refine ⟨rfl, ?_, ?_, ?_⟩
  · intro hm hp
    obtain ⟨res, hres, hupd⟩ := mecanumUpdatePID_eq s now hm hp
    refine ⟨fun i => (res i).2, _, fun i => ?_, hupd, fun _ => rfl⟩
    rw [hres i]; rfl
  · intro i
    refine ⟨rfl, ?_⟩
    fin_cases i <;> simp [motorSign]
  · intro hs
    have hsp := applyMotorSigned_speed sgn m c hs
    have hspn := applyMotorSigned_speed sgn m (-c) hs
    have hd := applyMotorSigned_dir sgn m c
    have hdn := applyMotorSigned_dir sgn m (-c)
    have hsq : (sgn : ℚ) = 1 ∨ (sgn : ℚ) = -1 := by
      rcases hs with h | h <;> simp [h]
    have hzero : (sgn : ℚ) * c = 0 ↔ c = 0 := by
      rcases hsq with h | h <;> simp [h]
    have hneg : (sgn : ℚ) * (-c) = -((sgn : ℚ) * c) := by ring
    rw [hneg] at hdn
    refine ⟨hsp, Int.ofNat_nonneg _, ?_, hd, ?_, ?_, ?_, ?_⟩
    · rw [hsp]; exact min_le_right _ _
    · rw [hd, ← hzero]
      constructor
      · intro h
        by_contra hne
        rcases lt_or_gt_of_ne hne with hlt | hgt
        · have h1 : ¬ ((sgn : ℚ) * c > 0) := not_lt.mpr (le_of_lt hlt)
          rw [if_neg h1, if_pos hlt] at h
          exact MotorDir.noConfusion h
        · rw [if_pos hgt] at h
          exact MotorDir.noConfusion h
      · intro h
        have h1 : ¬ ((sgn : ℚ) * c > 0) := by rw [h]; exact lt_irrefl _
        have h2 : ¬ ((sgn : ℚ) * c < 0) := by rw [h]; exact lt_irrefl _
        rw [if_neg h1, if_neg h2]
    · have e : ((applyMotorSigned sgn m (-c)).speed : Int) =
          ((applyMotorSigned sgn m c).speed : Int) := by
        rw [hsp, hspn, abs_neg]
      exact Int.ofNat.inj e
    · rw [hd, hdn]
      rcases lt_trichotomy ((sgn : ℚ) * c) 0 with hlt | heq | hgt
      · have h1 : ¬ ((sgn : ℚ) * c > 0) := not_lt.mpr (le_of_lt hlt)
        have h3 : -((sgn : ℚ) * c) > 0 := by linarith
        simp [h1, hlt, h3]
      · simp [heq]
      · have h1 : ¬ (-((sgn : ℚ) * c) > 0) := by
          intro h; linarith
        have h3 : -((sgn : ℚ) * c) < 0 := by linarith
        simp [h1, hgt, h3]
    · rw [hd, hdn]
      rcases lt_trichotomy ((sgn : ℚ) * c) 0 with hlt | heq | hgt
      · have h1 : ¬ ((sgn : ℚ) * c > 0) := not_lt.mpr (le_of_lt hlt)
        have h3 : -((sgn : ℚ) * c) > 0 := by linarith
        simp [h1, hlt, h3]
      · simp [heq]
      · have h1 : ¬ (-((sgn : ℚ) * c) > 0) := by
          intro h; linarith
        have h3 : -((sgn : ℚ) * c) < 0 := by linarith
        simp [h1, hgt, h3]

/-- Witness for C23: 30 ms after the last service in AI mode the call is eligible, and with
sign 1 the command 1/2 gives speed `min(floor(1/2 * 200), 200)`, as does -1/2. -/
theorem updatePID_applies_signed_command_witness :
    ((mecanumSetMode Drive.static ControlMode.MODE_AI).currentMode = ControlMode.MODE_AI ∧
      PID_PERIOD ≤ usub 30 (mecanumSetMode Drive.static ControlMode.MODE_AI).lastPIDTime ∧
      ∃ s2 : Drive,
        mecanumUpdatePID (mecanumSetMode Drive.static ControlMode.MODE_AI) 30 = some s2) ∧
    (((1 : Int) = 1 ∨ (1 : Int) = -1) ∧
      ((applyMotorSigned 1 { speed := 0, dir := MotorDir.RELEASE } (1 / 2)).speed : Int) =
        min ⌊|(1 / 2 : ℚ)| * (PWM_MAX : ℚ)⌋ PWM_MAX ∧
      (applyMotorSigned 1 { speed := 0, dir := MotorDir.RELEASE } (-(1 / 2))).speed =
        (applyMotorSigned 1 { speed := 0, dir := MotorDir.RELEASE } (1 / 2)).speed) :=
  have h1 : (mecanumSetMode Drive.static ControlMode.MODE_AI).currentMode =
      ControlMode.MODE_AI := rfl
  have h2 : PID_PERIOD ≤ usub 30 (mecanumSetMode Drive.static ControlMode.MODE_AI).lastPIDTime := by
    rw [PID_PERIOD_eq]; decide
  have hs : (1 : Int) = 1 ∨ (1 : Int) = -1 := Or.inl rfl
  have hA := (updatePID_applies_signed_command (mecanumSetMode Drive.static ControlMode.MODE_AI)
    30 { speed := 0, dir := MotorDir.RELEASE } (1 / 2) 1).2.1 h1 h2
  have hB := (updatePID_applies_signed_command Drive.static 0
    { speed := 0, dir := MotorDir.RELEASE } (1 / 2) 1).2.2.2 hs
  ⟨⟨h1, h2, hA.elim fun _ h => h.elim fun s2 h3 => ⟨s2, h3.2.1⟩⟩,
   ⟨hs, hB.1, hB.2.2.2.2.2.1⟩⟩

/-- C24: line framing in `protocolUpdate` does not depend on the chunking of the byte stream:
draining `s1` in one invocation and `s2` in the next dispatches to `handleLine` the same
lines in the same order, and leaves the same state, residual buffer included, as draining
`s1 ++ s2` in one invocation; one byte dispatches either nothing or, at a terminator with a
non-empty buffer, the buffer, which is empty afterwards; and from a buffer without
terminators the dispatched lines are the non-empty runs of bytes cut off by the terminators
(code 10 or 13), none of them empty or containing a terminator, and the residual buffer is
the run after the last terminator. -/
theorem protocolUpdate_chunking_independent (r : Robot) (s1 s2 : List (Nat × Nat))
    (ev : Nat × Nat) :
    (protocolRun r (s1 ++ s2)).2 =
      (protocolRun r s1).2 ++ (protocolRun (protocolUpdate r s1) s2).2 ∧
    protocolUpdate (protocolUpdate r s1) s2 = protocolUpdate r (s1 ++ s2) ∧
    ((protocolStep r ev).2 = [] ∨
      ((ev.1 = 10 ∨ ev.1 = 13) ∧ r.buffer ≠ [] ∧ (protocolStep r ev).2 = [r.buffer] ∧
        (protocolStep r ev).1.buffer = [])) ∧
    ((∀ c ∈ r.buffer, isTerminator c = false) →
      (protocolRun r s1).2 = terminatedRuns r.buffer (s1.map Prod.fst) ∧
      (protocolUpdate r s1).buffer = unterminatedRest r.buffer (s1.map Prod.fst) ∧
      (∀ l ∈ (protocolRun r s1).2, l ≠ [] ∧ ∀ c ∈ l, isTerminator c = false) ∧
      (∀ c ∈ (protocolUpdate r s1).buffer, isTerminator c = false)) := by
  have happ := protocolRun_append s1 s2 r
  refine ⟨?_, ?_, ?_, fun hbuf => protocolRun_frames s1 r hbuf⟩
  · rw [happ]; rfl
  · simp only [protocolUpdate]
    rw [happ]
  · rcases protocolStep_dispatch r ev with h | h
    · exact Or.inl h.1
    · exact Or.inr ⟨h.1, h.2.1, h.2.2.1, h.2.2.2.2⟩

/-- Witness for C24: from the empty buffer the bytes of "PING", a line feed, a carriage return
and "VE" dispatch the single line "PING" and leave "VE" in the buffer. -/
theorem protocolUpdate_chunking_independent_witness :
    (∀ c ∈ (Robot.start 0).buffer, isTerminator c = false) ∧
    (protocolRun (Robot.start 0)
      ((str "PING" ++ [10, 13] ++ str "VE").map (fun c => (c, 7)))).2 = [str "PING"] ∧
    (protocolUpdate (Robot.start 0)
      ((str "PING" ++ [10, 13] ++ str "VE").map (fun c => (c, 7)))).buffer = str "VE" := by
  have hbuf : ∀ c ∈ (Robot.start 0).buffer, isTerminator c = false := by
    intro c hc
    exact absurd hc (List.not_mem_nil c)
  have h := (protocolUpdate_chunking_independent (Robot.start 0)
    ((str "PING" ++ [10, 13] ++ str "VE").map (fun c => (c, 7))) [] (10, 0)).2.2.2 hbuf
  refine ⟨hbuf, ?_, ?_⟩
  · rw [h.1]; decide
  · rw [h.2.1]; decide

end RobotOmni
